import Mathlib

/-!
# localauthproxy: the per-request decision pipeline of `main.go`

A shallow embedding of `src/main.go`: the two memoised header policies
(`validateRequestHeaderAllowed`, `validateAuthorizationHeaderAllowed`), the
construction of `targetMap`, and the request handler registered with
`app.Use("*", ...)`.

Conventions of the embedding.

* A Go `string` is a Lean `String`; `len` and slicing count characters.  On the
  request targets the handler slices (it drops `"/" + prefix` from the front of
  a URL that starts with `/`) this agrees with Go's byte slicing.
* A Go `map[string]V` is an association list with at most one entry per key
  (`GoMap`); `m[k] = v` replaces the entry of `k` or adds one.
* The package-level caches are threaded through explicitly.
* The answer of the handler is what it did to the `fiber` context: the status it set, the
  `c.Set` calls it made and what it sent. Rendering these on the wire is `fasthttp`'s.
* The entries of an `http.Header` are listed in the order a `range` over it visits them.
* The libraries the handler calls (`net/http`, `fiber`, `glob`) are not part of
  the repository; the behaviour of theirs the handler relies on is modelled
  next to the place it is used, and the network (`httpClient.Do`), request
  construction errors (`http.NewRequest`) and glob compilation
  (`glob.Compile`) are parameters.
-/

namespace LocalAuthProxy

/-! ## Go maps -/

/-- A Go `map[string]V`: an association list, one entry per key. -/
abbrev GoMap (V : Type) := List (String × V)

namespace GoMap

/-- The lookup `v, ok := m[k]`. -/
def get? {V : Type} : GoMap V → String → Option V
  | [], _ => none
  | (k', v) :: rest, k => if k' = k then some v else get? rest k

/-- The assignment `m[k] = v`: replaces the entry of `k`, or adds one. -/
def set {V : Type} : GoMap V → String → V → GoMap V
  | [], k, v => [(k, v)]
  | (k', v') :: rest, k, v => if k' = k then (k, v) :: rest else (k', v') :: set rest k v

end GoMap

/-! ## Strings -/

/-- Go's `strings.ToLower`, on the ASCII letters: header names are ASCII. -/
def ToLower (s : String) : String := String.mk (s.data.map Char.toLower)

/-! ## Header policy (main.go 23-107) -/

/-- main.go:23. -/
def DefaultAllowedRequestHeaders : List String :=
  ["Origin", "Authorization", "Cookie", "From", "Proxy-Authorization", "User-Agent",
   "X-Forwarded-For", "X-Forwarded-Host", "X-Forwarded-Proto"]

/-- main.go:25. -/
def DefaultAllowedAuthorizationHeaders : List String :=
  ["Authorization", "Location", "Proxy-Authenticate", "Set-cookie", "WWW-Authenticate"]

/-- main.go:63-69. -/
def lowercaseHeaders (headers : List String) : List String :=
  headers.foldl (fun lowercaseHeaders h => lowercaseHeaders ++ [ToLower h]) []

/-- The loop `for _, h := range headersWithDefault { if h == lowercaseHeader { return true } }`
of main.go:80-85 and 99-104: whether it returns `true` from inside. -/
def rangeFinds (lowercaseHeader : String) : List String → Bool
  | [] => false
  | h :: rest => if h = lowercaseHeader then true else rangeFinds lowercaseHeader rest

/-- main.go:73-88, with `allowedHeadersCache` passed in and returned. -/
def validateRequestHeaderAllowed (allowedHeadersCache : GoMap Bool) (header : String)
    (allowedHeaders : List String) : Bool × GoMap Bool :=
  let lowercaseHeader := ToLower header
  match allowedHeadersCache.get? lowercaseHeader with
  | some v => (v, allowedHeadersCache)
  | none =>
    let headersWithDefault := lowercaseHeaders (allowedHeaders ++ DefaultAllowedRequestHeaders)
    if rangeFinds lowercaseHeader headersWithDefault then
      (true, allowedHeadersCache.set lowercaseHeader true)
    else
      (false, allowedHeadersCache.set lowercaseHeader false)

/-- main.go:92-107, with `allowedAuthorizationHeadersCache` passed in and returned. -/
def validateAuthorizationHeaderAllowed (allowedAuthorizationHeadersCache : GoMap Bool)
    (header : String) (allowedHeaders : List String) : Bool × GoMap Bool :=
  let lowercaseHeader := ToLower header
  match allowedAuthorizationHeadersCache.get? lowercaseHeader with
  | some v => (v, allowedAuthorizationHeadersCache)
  | none =>
    let headersWithDefault :=
      lowercaseHeaders (allowedHeaders ++ DefaultAllowedAuthorizationHeaders)
    if rangeFinds lowercaseHeader headersWithDefault then
      (true, allowedAuthorizationHeadersCache.set lowercaseHeader true)
    else
      (false, allowedAuthorizationHeadersCache.set lowercaseHeader false)

/-- The two package-level caches, main.go:71 and main.go:90. -/
structure Caches where
  allowedHeadersCache : GoMap Bool
  allowedAuthorizationHeadersCache : GoMap Bool
deriving DecidableEq

/-! ## Configuration and targets (main.go 27-48, 148-164) -/

/-- main.go:27-31. -/
structure Mapping where
  Forward : String
  Prefix : String
  Whitelist : List String
deriving DecidableEq

/-- main.go:33-35. -/
structure Client where
  TimeoutMs : Int
deriving DecidableEq

/-- main.go:37-41. -/
structure Auth where
  Url : String
  AllowedRequestHeaders : List String
  AllowedAuthorizationHeaders : List String
deriving DecidableEq

/-- main.go:43-48. -/
structure Config where
  Addr : String
  Client : Client
  Auth : Auth
  Mappings : List Mapping
deriving DecidableEq

/-- A compiled `glob.Glob`: all the handler uses of it is `Match`. -/
structure Glob where
  Match : String → Bool

/-- main.go:148-151. -/
structure Target where
  Url : String
  Whitelist : List Glob

/-- The inner loop of main.go:154-159: the patterns that compile, in order.
`compile w` is `glob.Compile(w)`, `none` when it returns an error. -/
def compileWhitelist (compile : String → Option Glob) : List String → List Glob
  | [] => []
  | w :: rest =>
    match compile w with
    | some g => g :: compileWhitelist compile rest
    | none => compileWhitelist compile rest

/-- main.go:152-164: `targetMap`, filled from `C.Mappings` in order. -/
def buildTargetMap (compile : String → Option Glob) (mappings : List Mapping) : GoMap Target :=
  mappings.foldl
    (fun targetMap m =>
      targetMap.set m.Prefix { Url := m.Forward, Whitelist := compileWhitelist compile m.Whitelist })
    []

/-! ## The libraries, as far as the handler uses them -/

/-- A Go `[]byte`. -/
abbrev Bytes := List UInt8

/-- An `io.Reader` over a body that arrives in pieces: each `Read` hands out
bytes of the first pending piece only. -/
structure Reader where
  chunks : List Bytes
deriving DecidableEq

namespace Reader

/-- The call `n, _ := r.Read(p)`: copies up to `len(p)` bytes of the first pending piece
to the front of `p`; returns the buffer, `n`, and the reader after the call. -/
def Read (r : Reader) (p : Bytes) : Bytes × Nat × Reader :=
  match r.chunks with
  | [] => (p, 0, r)
  | chunk :: rest =>
    let n := min p.length chunk.length
    (chunk.take n ++ p.drop n, n,
      { chunks := if chunk.drop n = [] then rest else chunk.drop n :: rest })

/-- Everything the reader would deliver if read to the end. -/
def content (r : Reader) : Bytes := r.chunks.flatten

end Reader

/-- The token characters of a header name (net/textproto `validHeaderFieldByte`). -/
def validHeaderFieldByte (c : Char) : Bool :=
  c.isAlphanum ||
    ['!', '#', '$', '%', '&', Char.ofNat 39, '*', '+', '-', '.', '^', '_', Char.ofNat 96,
      '|', '~'].contains c

/-- The letter-case pass of net/textproto `canonicalMIMEHeaderKey`: upper case at the
start and after each dash, lower case elsewhere. -/
def canonicalChars : Bool → List Char → List Char
  | _, [] => []
  | upper, c :: rest =>
    let c1 :=
      if upper && c.isLower then c.toUpper
      else if !upper && c.isUpper then c.toLower
      else c
    c1 :: canonicalChars (c1 = '-') rest

/-- net/textproto `CanonicalMIMEHeaderKey`: a key with a character that is not a token
character is returned unchanged. -/
def CanonicalMIMEHeaderKey (s : String) : String :=
  if s.data.all validHeaderFieldByte then String.mk (canonicalChars true s.data) else s

/-- A net/http `http.Header`, `map[string][]string`. -/
abbrev Header := GoMap (List String)

namespace Header

/-- `h.Set(key, value)`: the entry of the canonical key becomes the single `value`. -/
def Set (h : Header) (key value : String) : Header :=
  GoMap.set h (CanonicalMIMEHeaderKey key) [value]

/-- `h.Values(key)`: the values under the canonical key, none when it is absent. -/
def Values (h : Header) (key : String) : List String :=
  (GoMap.get? h (CanonicalMIMEHeaderKey key)).getD []

end Header

/-- A `*http.Request` as `http.NewRequest` and the handler leave it. `Body` is `none`
for the `nil` body of main.go:196. -/
structure Request where
  Method : String
  URL : String
  Header : Header
  Body : Option Bytes
deriving DecidableEq

/-- A `*http.Response`. -/
structure Response where
  StatusCode : Int
  Header : Header
  ContentLength : Int
  Body : Reader
deriving DecidableEq

/-- The request side of `*fiber.Ctx`. `Header` lists the pairs `VisitAll` visits, in
its order, under the names fasthttp hands out. -/
structure Ctx where
  Method : String
  OriginalURL : String
  Header : List (String × String)
  Body : Bytes
deriving DecidableEq

/-- What the handler sends: `SendString`, `Send` or `SendStream`. -/
inductive Sent where
  | string (s : String)
  | bytes (b : Bytes)
  | stream (r : Reader)
deriving DecidableEq

/-- What the handler did to the response side of `*fiber.Ctx` when it returns: the status
it passed to `c.Status`, the calls `c.Set(key, val)` it made, in order and with the
arguments as passed, and what it sent. How fasthttp renders these on the wire (it manages
`Date`, `Transfer-Encoding` and `Content-Length` itself and keeps some names in fields of
their own) is outside the embedding. -/
structure Reply where
  Status : Int
  Header : List (String × String)
  Body : Sent
deriving DecidableEq

/-- How a run of the handler ends. -/
inductive Outcome where
  | replied (r : Reply)
  | panicked
deriving DecidableEq

/-- The three places the handler calls `httpClient.Do`: main.go:208, 233 and 267. -/
inductive Leg where
  | preflight
  | auth
  | backend
deriving DecidableEq

/-- What is outside the process. `requestError method url` is the error of
`http.NewRequest(method, url, _)`, if it returns one; `Do leg req` is what
`httpClient.Do(req)` returns at that call site. -/
structure Net where
  requestError : String → String → Option String
  Do : Leg → Request → Except String Response

/-- A run of the handler: the caches after it, the outbound calls made, in order, and
how it ended. -/
structure Result where
  caches : Caches
  calls : List (Leg × Request)
  outcome : Outcome
deriving DecidableEq

/-! ## The handler (main.go 174-276) -/

/-- Go's `strings.Split(s, sep)` for a separator of one character, on characters. -/
def splitChars (sep : Char) : List Char → List (List Char)
  | [] => [[]]
  | c :: rest =>
    if c = sep then [] :: splitChars sep rest
    else
      match splitChars sep rest with
      | [] => [[c]]
      | piece :: pieces => (c :: piece) :: pieces

/-- Go's `strings.Split(s, sep)` for a separator of one character. -/
def Split (s : String) (sep : Char) : List String :=
  (splitChars sep s.data).map String.mk

/-- The slice `s[n:]`. -/
def sliceFrom (s : String) (n : Nat) : String := String.mk (s.data.drop n)

/-- `http.MethodOptions`. -/
def MethodOptions : String := "OPTIONS"

/-- The call `c.Set(key, val)`, added to the calls made so far. -/
def ctxSet (h : List (String × String)) (key val : String) : List (String × String) :=
  h ++ [(key, val)]

/-- The loops `for k, v := range resp.Header { c.Set(k, v[0]) }` of main.go:213-215,
239-241 and 272-274; `none` when `v[0]` is out of range. -/
def setFirstValues :
    List (String × String) → List (String × List String) → Option (List (String × String))
  | h, [] => some h
  | h, (k, v) :: rest =>
    match v[0]? with
    | none => none
    | some v0 => setFirstValues (ctxSet h k v0) rest

/-- The loops `VisitAll(func(key, value) { req.Header.Set(string(key), string(value)) })`
of main.go:229-231 and 255-257. -/
def visitAllSet : Header → List (String × String) → Header
  | h, [] => h
  | h, (key, value) :: rest => visitAllSet (Header.Set h key value) rest

/-- The loop of main.go:202-207: `Set` for the names `validateRequestHeaderAllowed`
lets through. -/
def visitAllSetAllowed (allowedHeaders : List String) :
    GoMap Bool → Header → List (String × String) → Header × GoMap Bool
  | cache, h, [] => (h, cache)
  | cache, h, (key, value) :: rest =>
    match validateRequestHeaderAllowed cache key allowedHeaders with
    | (true, cache1) => visitAllSetAllowed allowedHeaders cache1 (Header.Set h key value) rest
    | (false, cache1) => visitAllSetAllowed allowedHeaders cache1 h rest

/-- The loop of main.go:260-264: `Set(k, v[0])` for the names
`validateAuthorizationHeaderAllowed` lets through; `none` when `v[0]` is out of range. -/
def overlayAllowed (allowedHeaders : List String) :
    GoMap Bool → Header → List (String × List String) → Option Header × GoMap Bool
  | cache, h, [] => (some h, cache)
  | cache, h, (k, v) :: rest =>
    match validateAuthorizationHeaderAllowed cache k allowedHeaders with
    | (true, cache1) =>
      match v[0]? with
      | none => (none, cache1)
      | some v0 => overlayAllowed allowedHeaders cache1 (Header.Set h k v0) rest
    | (false, cache1) => overlayAllowed allowedHeaders cache1 h rest

/-- The reply `c.Status(status).SendString(s)` with no header set. -/
def sendString (status : Int) (s : String) : Outcome :=
  .replied { Status := status, Header := [], Body := .string s }

/-- main.go:193-217, the branch taken for `OPTIONS` without bypass. -/
def preflight (C : Config) (net : Net) (st : Caches) (c : Ctx) (path : String) : Result :=
  match net.requestError MethodOptions (C.Auth.Url ++ path) with
  | some err => { caches := st, calls := [], outcome := sendString 500 err }
  | none =>
    let (header, cache) :=
      visitAllSetAllowed C.Auth.AllowedRequestHeaders st.allowedHeadersCache [] c.Header
    let st1 : Caches := { st with allowedHeadersCache := cache }
    let req : Request :=
      { Method := MethodOptions, URL := C.Auth.Url ++ path, Header := header, Body := none }
    match net.Do .preflight req with
    | .error err =>
      { caches := st1, calls := [(.preflight, req)], outcome := sendString 500 err }
    | .ok resp =>
      match setFirstValues [] resp.Header with
      | none => { caches := st1, calls := [(.preflight, req)], outcome := .panicked }
      | some h =>
        { caches := st1, calls := [(.preflight, req)],
          outcome := .replied { Status := resp.StatusCode, Header := h, Body := .string "" } }

/-- main.go:248-275, the request to the backend; `authResp` is the variable of
main.go:220, `calls` the outbound calls made before. -/
def forward (C : Config) (target : Target) (net : Net) (st : Caches) (c : Ctx)
    (path : String) (authResp : Option Response) (calls : List (Leg × Request)) : Result :=
  match net.requestError c.Method (target.Url ++ path) with
  | some err => { caches := st, calls := calls, outcome := sendString 500 err }
  | none =>
    let header := visitAllSet [] c.Header
    let (overlaid, cache) :=
      match authResp with
      | none => (some header, st.allowedAuthorizationHeadersCache)
      | some authResp =>
        overlayAllowed C.Auth.AllowedAuthorizationHeaders st.allowedAuthorizationHeadersCache
          header authResp.Header
    let st1 : Caches := { st with allowedAuthorizationHeadersCache := cache }
    match overlaid with
    | none => { caches := st1, calls := calls, outcome := .panicked }
    | some header1 =>
      let req : Request :=
        { Method := c.Method, URL := target.Url ++ path, Header := header1, Body := some c.Body }
      match net.Do .backend req with
      | .error err =>
        { caches := st1, calls := calls ++ [(.backend, req)], outcome := sendString 500 err }
      | .ok resp =>
        match setFirstValues [] resp.Header with
        | none => { caches := st1, calls := calls ++ [(.backend, req)], outcome := .panicked }
        | some h =>
          { caches := st1, calls := calls ++ [(.backend, req)],
            outcome :=
              .replied { Status := resp.StatusCode, Header := h, Body := .stream resp.Body } }

/-- main.go:238-245, the reply to an auth response whose status is not 200.
`make([]byte, n)` panics for a negative `n` (a length too large to allocate, which panics
as well, is not modelled); the result and error of `Read` are dropped, as in the source. -/
def rejected (authResp : Response) : Outcome :=
  match setFirstValues [] authResp.Header with
  | none => .panicked
  | some h =>
    if authResp.ContentLength < 0 then .panicked
    else
      let body : Bytes := List.replicate authResp.ContentLength.toNat 0
      let (body1, _, _) := authResp.Body.Read body
      .replied { Status := 401, Header := h, Body := .bytes body1 }

/-- main.go:220-275 when `bypass` is false: the auth round trip, then the backend. -/
def authenticate (C : Config) (target : Target) (net : Net) (st : Caches) (c : Ctx)
    (path : String) : Result :=
  match net.requestError c.Method (C.Auth.Url ++ path) with
  | some err => { caches := st, calls := [], outcome := sendString 500 err }
  | none =>
    let authReq : Request :=
      { Method := c.Method, URL := C.Auth.Url ++ path, Header := visitAllSet [] c.Header,
        Body := some [] }
    match net.Do .auth authReq with
    | .error err => { caches := st, calls := [(.auth, authReq)], outcome := sendString 500 err }
    | .ok authResp =>
      if authResp.StatusCode ≠ 200 then
        { caches := st, calls := [(.auth, authReq)], outcome := rejected authResp }
      else forward C target net st c path (some authResp) [(.auth, authReq)]

/-- The loop of main.go:185-191. -/
def bypassed (whitelist : List Glob) (path : String) : Bool :=
  match whitelist with
  | [] => false
  | w :: rest => if w.Match path then true else bypassed rest path

/-- The handler of main.go:174-276. `(Split originalUrl "/")[1]` panics when the URL
holds no `/`. -/
def handler (C : Config) (targetMap : GoMap Target) (net : Net) (st : Caches) (c : Ctx) :
    Result :=
  let method := c.Method
  let originalUrl := c.OriginalURL
  match (Split originalUrl '/')[1]? with
  | none => { caches := st, calls := [], outcome := .panicked }
  | some pfx =>
    let (target, ok) : Target × Bool :=
      match targetMap.get? pfx with
      | some t => (t, true)
      | none => ({ Url := "", Whitelist := [] }, false)
    if originalUrl = "/" ∨ ¬ ok then
      { caches := st, calls := [],
        outcome := sendString 400 ("Prefix \"" ++ pfx ++ "\" not found in mappings") }
    else
      let path := sliceFrom originalUrl (pfx.length + 1)
      let bypass := bypassed target.Whitelist path
      if method = MethodOptions ∧ ¬ bypass then preflight C net st c path
      else if ¬ bypass then authenticate C target net st c path
      else forward C target net st c path none []

/-! ## A worked configuration -/

/-- A stand-in for `glob.Compile` on the two pattern shapes of the examples: a pattern
ending in `*` matches the paths that start with what precedes the star, any other
pattern matches itself. -/
def compileExample (w : String) : Option Glob :=
  match w.data.reverse with
  | '*' :: rev => some { Match := fun path => rev.reverse.isPrefixOf path.data }
  | _ => some { Match := fun path => path = w }

/-- The configuration of the scenario: one mapping `svc` with whitelist `/public/*`. -/
def exampleConfig : Config :=
  { Addr := ":3333", Client := { TimeoutMs := 10000 },
    Auth := { Url := "http://auth.local", AllowedRequestHeaders := [],
              AllowedAuthorizationHeaders := ["X-User"] },
    Mappings := [{ Forward := "http://backend.local", Prefix := "svc",
                   Whitelist := ["/public/*"] }] }

/-- The bytes of an ASCII text. -/
def ascii (s : String) : Bytes := s.data.map (fun ch => UInt8.ofNat ch.toNat)

/-- A network in which every request can be built, the auth endpoint answers `authResp`
on both of its legs and the backend answers `backendResp`. -/
def exampleNet (authResp backendResp : Response) : Net :=
  { requestError := fun _ _ => none,
    Do := fun leg _ =>
      match leg with
      | .backend => .ok backendResp
      | _ => .ok authResp }

/-- No entry in either cache. -/
def emptyCaches : Caches := { allowedHeadersCache := [], allowedAuthorizationHeadersCache := [] }

/-! ## Specification vocabulary -/

/-- The cache states a process can be in: the empty cache of start-up, and what a call
of `validate` with the allow-list `L` leaves behind. -/
inductive ReachableBy (validate : GoMap Bool → String → List String → Bool × GoMap Bool)
    (L : List String) : GoMap Bool → Prop
  | empty : ReachableBy validate L []
  | call {cache : GoMap Bool} (h : String) :
      ReachableBy validate L cache → ReachableBy validate L (validate cache h L).2

/-- The cache after the calls `validate(h, L)` for the names `hs`, in order. -/
def afterCalls (validate : GoMap Bool → String → List String → Bool × GoMap Bool)
    (L : List String) : GoMap Bool → List String → GoMap Bool
  | cache, [] => cache
  | cache, h :: hs => afterCalls validate L (validate cache h L).2 hs

/-- The policy of a direction: the lowercased name is the lowercased form of an element
of the configured list or of the built-in defaults. -/
def InPolicy (defaults L : List String) (h : String) : Prop :=
  ∃ a ∈ L ++ defaults, ToLower a = ToLower h

instance (defaults L : List String) (h : String) : Decidable (InPolicy defaults L h) := by
  unfold InPolicy; infer_instance

/-- The decision of a direction, as the loop computes it on a cache miss. -/
def decision (defaults L : List String) (h : String) : Bool :=
  rangeFinds (ToLower h) (lowercaseHeaders (L ++ defaults))

/-- Every entry of the cache holds the decision for its key. -/
def CacheSound (defaults L : List String) (cache : GoMap Bool) : Prop :=
  ∀ k v, cache.get? k = some v → v = rangeFinds k (lowercaseHeaders (L ++ defaults))

/-- What the two `validate` functions have in common: a hit returns the cached value
and leaves the cache alone, a miss returns the decision and stores it. -/
def Memoises (defaults : List String)
    (validate : GoMap Bool → String → List String → Bool × GoMap Bool) : Prop :=
  (∀ L cache h v, cache.get? (ToLower h) = some v → validate cache h L = (v, cache)) ∧
  (∀ L cache h, cache.get? (ToLower h) = none →
    validate cache h L =
      (decision defaults L h, cache.set (ToLower h) (decision defaults L h)))

/-- The assignments `m[k] = v` for the pairs of `ops`, in order. -/
def setAll {V : Type} : GoMap V → List (String × V) → GoMap V
  | m, [] => m
  | m, (k, v) :: rest => setAll (GoMap.set m k v) rest

/-- The value of the last pair of `ops` whose key is `key`. -/
def lastSet {V : Type} : List (String × V) → String → Option V
  | [], _ => none
  | (k, v) :: rest, key =>
    match lastSet rest key with
    | some w => some w
    | none => if k = key then some v else none

/-- What the client sent under a name: the value of the last pair `VisitAll` visits
whose name has the same canonical form, if there is one. -/
def lastSent (pairs : List (String × String)) (name : String) : Option String :=
  lastSet (pairs.map fun kv => (CanonicalMIMEHeaderKey kv.1, kv.2))
    (CanonicalMIMEHeaderKey name)

/-- The remainder path of main.go:183 for the prefix `pfx`. -/
def remainder (c : Ctx) (pfx : String) : String := sliceFrom c.OriginalURL (pfx.length + 1)

/-- The target main.go:160-163 stores for a mapping. -/
def targetOf (compile : String → Option Glob) (m : Mapping) : Target :=
  { Url := m.Forward, Whitelist := compileWhitelist compile m.Whitelist }

/-- The request main.go:249-257 builds before any overlay. -/
def plainBackendRequest (c : Ctx) (target : Target) (path : String) : Request :=
  { Method := c.Method, URL := target.Url ++ path, Header := visitAllSet [] c.Header,
    Body := some c.Body }

/-- The calls of a loop `for k, v := range hdr { c.Set(k, v[0]) }`: one call per entry of
`hdr`, in the order of the iteration, with the name of the entry and the first of its
values, and no other call. -/
def SetsFirstValues (sets : List (String × String)) (hdr : Header) : Prop :=
  List.Forall₂ (fun set kv => set.1 = kv.1 ∧ kv.2.head? = some set.2) sets hdr

/-- The request main.go:196-207 builds for the auth endpoint, from the cache state `st`. -/
def preflightRequest (C : Config) (st : Caches) (c : Ctx) (path : String) : Request :=
  { Method := MethodOptions, URL := C.Auth.Url ++ path,
    Header :=
      (visitAllSetAllowed C.Auth.AllowedRequestHeaders st.allowedHeadersCache [] c.Header).1,
    Body := none }

/-- The request main.go:223-231 builds for the auth endpoint. -/
def authRequest (C : Config) (c : Ctx) (path : String) : Request :=
  { Method := c.Method, URL := C.Auth.Url ++ path, Header := visitAllSet [] c.Header,
    Body := some [] }

/-! ## Lemmas: maps -/

theorem GoMap.get?_set {V : Type} (m : GoMap V) (k k' : String) (v : V) :
    (GoMap.set m k v).get? k' = if k = k' then some v else m.get? k' := by
  induction m with
  | nil => simp [GoMap.set, GoMap.get?]
  | cons e rest ih =>
    obtain ⟨a, b⟩ := e
    by_cases hak : a = k
    · subst hak
      by_cases hak' : a = k' <;> simp [GoMap.set, GoMap.get?, hak']
    · by_cases hak' : a = k'
      · subst hak'
        have : ¬ k = a := fun h => hak h.symm
        simp [GoMap.set, GoMap.get?, hak, this]
      · simp only [GoMap.set, GoMap.get?, hak, hak', ih, if_false]

/-! ## Lemmas: header policy -/

theorem lowercaseHeaders_eq_map (headers : List String) :
    lowercaseHeaders headers = headers.map ToLower := by
  unfold lowercaseHeaders
  suffices h : ∀ acc : List String,
      headers.foldl (fun l h => l ++ [ToLower h]) acc = acc ++ headers.map ToLower by
    simpa using h []
  induction headers with
  | nil => intro acc; simp
  | cons a rest ih => intro acc; simp [ih]

theorem rangeFinds_iff (x : String) (l : List String) : rangeFinds x l = true ↔ x ∈ l := by
  induction l with
  | nil => simp [rangeFinds]
  | cons a rest ih =>
    by_cases h : a = x
    · simp [rangeFinds, h]
    · have : ¬ x = a := fun e => h e.symm
      simp only [rangeFinds, h, ih, this, if_false, List.mem_cons, false_or]

theorem decision_iff (defaults L : List String) (h : String) :
    decision defaults L h = true ↔ InPolicy defaults L h := by
  unfold decision InPolicy
  rw [rangeFinds_iff, lowercaseHeaders_eq_map, List.mem_map]

theorem decision_congr (defaults L : List String) {h h' : String}
    (e : ToLower h = ToLower h') : decision defaults L h = decision defaults L h' := by
  unfold decision; rw [e]

theorem validateRequest_hit (L : List String) (cache : GoMap Bool) (h : String) (v : Bool)
    (hc : cache.get? (ToLower h) = some v) :
    validateRequestHeaderAllowed cache h L = (v, cache) := by
  simp only [validateRequestHeaderAllowed, hc]

theorem validateRequest_miss (L : List String) (cache : GoMap Bool) (h : String)
    (hc : cache.get? (ToLower h) = none) :
    validateRequestHeaderAllowed cache h L =
      (decision DefaultAllowedRequestHeaders L h,
        cache.set (ToLower h) (decision DefaultAllowedRequestHeaders L h)) := by
  simp only [validateRequestHeaderAllowed, hc, decision]
  split <;> simp_all

theorem validateAuthorization_hit (L : List String) (cache : GoMap Bool) (h : String)
    (v : Bool) (hc : cache.get? (ToLower h) = some v) :
    validateAuthorizationHeaderAllowed cache h L = (v, cache) := by
  simp only [validateAuthorizationHeaderAllowed, hc]

theorem validateAuthorization_miss (L : List String) (cache : GoMap Bool) (h : String)
    (hc : cache.get? (ToLower h) = none) :
    validateAuthorizationHeaderAllowed cache h L =
      (decision DefaultAllowedAuthorizationHeaders L h,
        cache.set (ToLower h) (decision DefaultAllowedAuthorizationHeaders L h)) := by
  simp only [validateAuthorizationHeaderAllowed, hc, decision]
  split <;> simp_all

theorem memoises_request :
    Memoises DefaultAllowedRequestHeaders validateRequestHeaderAllowed :=
  ⟨validateRequest_hit, validateRequest_miss⟩

theorem memoises_authorization :
    Memoises DefaultAllowedAuthorizationHeaders validateAuthorizationHeaderAllowed :=
  ⟨validateAuthorization_hit, validateAuthorization_miss⟩

theorem memo_fst {defaults : List String}
    {validate : GoMap Bool → String → List String → Bool × GoMap Bool}
    (hm : Memoises defaults validate) (L : List String) (cache : GoMap Bool) (h : String)
    (hs : CacheSound defaults L cache) :
    (validate cache h L).1 = decision defaults L h := by
  cases hc : cache.get? (ToLower h) with
  | some v => rw [hm.1 L cache h v hc]; exact hs _ _ hc
  | none => rw [hm.2 L cache h hc]

theorem memo_snd_get? {defaults : List String}
    {validate : GoMap Bool → String → List String → Bool × GoMap Bool}
    (hm : Memoises defaults validate) (L : List String) (cache : GoMap Bool) (h k : String) :
    (validate cache h L).2.get? k =
      match cache.get? k with
      | some v => some v
      | none => if ToLower h = k then some (decision defaults L h) else none := by
  cases hc : cache.get? (ToLower h) with
  | some v =>
    rw [hm.1 L cache h v hc]
    cases hk : cache.get? k with
    | some w => rfl
    | none =>
      have : ¬ ToLower h = k := by
        intro e; rw [e] at hc; rw [hc] at hk; cases hk
      simp [this]
  | none =>
    rw [hm.2 L cache h hc]
    simp only [GoMap.get?_set]
    by_cases e : ToLower h = k
    · subst e; simp [hc]
    · simp only [e, if_false]; cases cache.get? k <;> rfl

theorem memo_sound {defaults : List String}
    {validate : GoMap Bool → String → List String → Bool × GoMap Bool}
    (hm : Memoises defaults validate) (L : List String) (cache : GoMap Bool) (h : String)
    (hs : CacheSound defaults L cache) :
    CacheSound defaults L (validate cache h L).2 := by
  intro k v hk
  rw [memo_snd_get? hm] at hk
  cases hc : cache.get? k with
  | some w => rw [hc] at hk; exact hs k v (by rw [hc]; exact hk)
  | none =>
    rw [hc] at hk
    by_cases e : ToLower h = k
    · subst e
      simp only [if_true, Option.some.injEq] at hk
      rw [← hk]; rfl
    · simp [e] at hk

theorem memo_reachable_sound {defaults : List String}
    {validate : GoMap Bool → String → List String → Bool × GoMap Bool}
    (hm : Memoises defaults validate) {L : List String} {cache : GoMap Bool}
    (h : ReachableBy validate L cache) : CacheSound defaults L cache := by
  induction h with
  | empty => intro k v hk; simp [GoMap.get?] at hk
  | call h _ ih => exact memo_sound hm L _ h ih

theorem reachable_afterCalls
    {validate : GoMap Bool → String → List String → Bool × GoMap Bool}
    {L : List String} (hs : List String) :
    ∀ {cache : GoMap Bool}, ReachableBy validate L cache →
      ReachableBy validate L (afterCalls validate L cache hs) := by
  induction hs with
  | nil => intro cache h; exact h
  | cons a rest ih => intro cache h; exact ih (ReachableBy.call a h)

/-! ## Lemmas: letter case -/

theorem toLower_toUpper_of_isLower (c : Char) (h : c.isLower = true) :
    c.toUpper.toLower = c.toLower := by
  have hc : Char.ofNat c.toNat = c := Char.ofNat_toNat c
  have hb : 97 ≤ c.toNat ∧ c.toNat ≤ 122 := by
    simp only [Char.isLower, Bool.and_eq_true, decide_eq_true_eq, ge_iff_le] at h
    exact ⟨h.1, h.2⟩
  rw [← hc]
  generalize c.toNat = n at hb
  obtain ⟨h1, h2⟩ := hb
  interval_cases n <;> rfl

theorem toLower_toLower_of_isUpper (c : Char) (h : c.isUpper = true) :
    c.toLower.toLower = c.toLower := by
  have hc : Char.ofNat c.toNat = c := Char.ofNat_toNat c
  have hb : 65 ≤ c.toNat ∧ c.toNat ≤ 90 := by
    simp only [Char.isUpper, Bool.and_eq_true, decide_eq_true_eq, ge_iff_le] at h
    exact ⟨h.1, h.2⟩
  rw [← hc]
  generalize c.toNat = n at hb
  obtain ⟨h1, h2⟩ := hb
  interval_cases n <;> rfl

theorem map_toLower_canonicalChars (cs : List Char) :
    ∀ upper : Bool, (canonicalChars upper cs).map Char.toLower = cs.map Char.toLower := by
  induction cs with
  | nil => intro upper; rfl
  | cons c rest ih =>
    intro upper
    simp only [canonicalChars, List.map_cons, ih]
    congr 1
    split
    · rename_i h
      simp only [Bool.and_eq_true] at h
      exact toLower_toUpper_of_isLower c h.2
    · split
      · rename_i h
        simp only [Bool.and_eq_true] at h
        exact toLower_toLower_of_isUpper c h.2
      · rfl

/-- Canonicalising a name changes letter case only. -/
theorem ToLower_canonical (s : String) : ToLower (CanonicalMIMEHeaderKey s) = ToLower s := by
  unfold CanonicalMIMEHeaderKey
  split
  · simp only [ToLower, map_toLower_canonicalChars]
  · rfl

theorem decision_of_canonical_eq (defaults L : List String) {h k : String}
    (e : CanonicalMIMEHeaderKey k = CanonicalMIMEHeaderKey h) :
    decision defaults L k = decision defaults L h := by
  apply decision_congr
  rw [← ToLower_canonical k, ← ToLower_canonical h, e]

/-! ## Lemmas: sequences of assignments -/

theorem get?_setAll {V : Type} (ops : List (String × V)) :
    ∀ (m : GoMap V) (key : String),
      (setAll m ops).get? key = (lastSet ops key).or (m.get? key) := by
  induction ops with
  | nil => intro m key; simp [setAll, lastSet]
  | cons op rest ih =>
    intro m key
    obtain ⟨k, v⟩ := op
    simp only [setAll, lastSet, ih, GoMap.get?_set]
    cases lastSet rest key with
    | some w => simp
    | none => by_cases e : k = key <;> simp [e]

theorem lastSet_mem {V : Type} (ops : List (String × V)) (key : String) (v : V)
    (h : lastSet ops key = some v) : (key, v) ∈ ops := by
  induction ops with
  | nil => simp [lastSet] at h
  | cons op rest ih =>
    obtain ⟨k, w⟩ := op
    simp only [lastSet] at h
    cases hr : lastSet rest key with
    | some u =>
      rw [hr] at h
      simp only [Option.some.injEq] at h
      subst h
      exact List.mem_cons_of_mem _ (ih hr)
    | none =>
      rw [hr] at h
      by_cases e : k = key
      · simp only [e, if_true, Option.some.injEq] at h
        subst h; subst e
        exact List.mem_cons_self _ _
      · simp [e] at h

theorem lastSet_eq_none {V : Type} (ops : List (String × V)) (key : String) :
    lastSet ops key = none ↔ ∀ v, (key, v) ∉ ops := by
  induction ops with
  | nil => simp [lastSet]
  | cons op rest ih =>
    obtain ⟨k, w⟩ := op
    simp only [lastSet]
    cases hr : lastSet rest key with
    | some u =>
      constructor
      · intro h; cases h
      · intro h
        exact absurd (List.mem_cons_of_mem _ (lastSet_mem rest key u hr)) (h u)
    | none =>
      have hn := ih.1 hr
      by_cases e : k = key
      · subst e
        simp only [if_true]
        constructor
        · intro h; cases h
        · intro h
          exact absurd (List.mem_cons_self _ _) (h w)
      · simp only [e, if_false, true_iff]
        intro v hv
        rcases List.mem_cons.1 hv with h1 | h1
        · exact e (Prod.mk.inj h1).1.symm
        · exact hn v h1

theorem lastSet_of_nodup {V : Type} (ops : List (String × V)) (key : String) (v : V)
    (hn : (ops.map Prod.fst).Nodup) (h : (key, v) ∈ ops) : lastSet ops key = some v := by
  induction ops with
  | nil => cases h
  | cons op rest ih =>
    obtain ⟨k, w⟩ := op
    simp only [List.map_cons, List.nodup_cons] at hn
    simp only [lastSet]
    rcases List.mem_cons.1 h with h1 | h1
    · obtain ⟨e1, e2⟩ := Prod.mk.inj h1
      subst e1; subst e2
      have : lastSet rest key = none := by
        rw [lastSet_eq_none]
        intro u hu
        exact hn.1 (List.mem_map.2 ⟨(key, u), hu, rfl⟩)
      simp [this]
    · rw [ih hn.2 h1]

/-! ## Lemmas: the header loops of the handler -/

theorem visitAllSet_eq (pairs : List (String × String)) :
    ∀ h : Header,
      visitAllSet h pairs =
        setAll h (pairs.map fun kv => (CanonicalMIMEHeaderKey kv.1, [kv.2])) := by
  induction pairs with
  | nil => intro h; rfl
  | cons kv rest ih =>
    intro h
    obtain ⟨k, v⟩ := kv
    simp only [visitAllSet, List.map_cons, setAll, ih, Header.Set]

theorem setFirstValues_eq (hdr : List (String × List String))
    (hne : ∀ kv ∈ hdr, kv.2 ≠ []) :
    ∀ h : List (String × String),
      ∃ sets, setFirstValues h hdr = some (h ++ sets) ∧ SetsFirstValues sets hdr := by
  induction hdr with
  | nil => intro h; exact ⟨[], by simp [setFirstValues], List.Forall₂.nil⟩
  | cons kv rest ih =>
    intro h
    obtain ⟨k, v⟩ := kv
    have hv : v ≠ [] := hne (k, v) (List.mem_cons_self _ _)
    cases v with
    | nil => exact absurd rfl hv
    | cons v0 vs =>
      obtain ⟨sets, hsets, hall⟩ :=
        ih (fun kv hkv => hne kv (List.mem_cons_of_mem _ hkv)) (h ++ [(k, v0)])
      refine ⟨(k, v0) :: sets, ?_, List.Forall₂.cons ⟨rfl, rfl⟩ hall⟩
      simp only [setFirstValues, List.getElem?_cons_zero, ctxSet, hsets, List.append_assoc,
        List.singleton_append]

theorem visitAllSetAllowed_eq (L : List String) (pairs : List (String × String)) :
    ∀ (cache : GoMap Bool) (h : Header), CacheSound DefaultAllowedRequestHeaders L cache →
      (visitAllSetAllowed L cache h pairs).1 =
          setAll h
            ((pairs.filter fun kv => decision DefaultAllowedRequestHeaders L kv.1).map
              fun kv => (CanonicalMIMEHeaderKey kv.1, [kv.2])) ∧
        CacheSound DefaultAllowedRequestHeaders L (visitAllSetAllowed L cache h pairs).2 := by
  induction pairs with
  | nil => intro cache h hs; exact ⟨rfl, hs⟩
  | cons kv rest ih =>
    intro cache h hs
    obtain ⟨k, v⟩ := kv
    have h1 := memo_fst memoises_request L cache k hs
    have h2 := memo_sound memoises_request L cache k hs
    cases hv : validateRequestHeaderAllowed cache k L with
    | mk ok cache1 =>
      rw [hv] at h1 h2
      simp only at h1 h2
      cases ok with
      | true =>
        simp only [visitAllSetAllowed, hv, List.filter_cons, ← h1, if_true, List.map_cons,
          setAll]
        exact ih cache1 _ h2
      | false =>
        simp only [visitAllSetAllowed, hv, List.filter_cons, ← h1]
        exact ih cache1 _ h2

theorem overlayAllowed_eq (L : List String) (hdr : List (String × List String))
    (hne : ∀ kv ∈ hdr, kv.2 ≠ []) :
    ∀ (cache : GoMap Bool) (h : Header),
      CacheSound DefaultAllowedAuthorizationHeaders L cache →
      (overlayAllowed L cache h hdr).1 =
          some (setAll h
            ((hdr.filter fun kv => decision DefaultAllowedAuthorizationHeaders L kv.1).map
              fun kv => (CanonicalMIMEHeaderKey kv.1, [kv.2.headD ""]))) ∧
        CacheSound DefaultAllowedAuthorizationHeaders L (overlayAllowed L cache h hdr).2 := by
  induction hdr with
  | nil => intro cache h hs; exact ⟨rfl, hs⟩
  | cons kv rest ih =>
    intro cache h hs
    obtain ⟨k, v⟩ := kv
    have hv : v ≠ [] := hne (k, v) (List.mem_cons_self _ _)
    have hrest : ∀ kv ∈ rest, kv.2 ≠ [] := fun kv hkv => hne kv (List.mem_cons_of_mem _ hkv)
    have h1 := memo_fst memoises_authorization L cache k hs
    have h2 := memo_sound memoises_authorization L cache k hs
    cases hval : validateAuthorizationHeaderAllowed cache k L with
    | mk ok cache1 =>
      rw [hval] at h1 h2
      simp only at h1 h2
      cases ok with
      | true =>
        cases v with
        | nil => exact absurd rfl hv
        | cons v0 vs =>
          simp only [overlayAllowed, hval, List.getElem?_cons_zero, List.filter_cons, ← h1,
            if_true, List.map_cons, setAll, List.headD_cons, Header.Set]
          exact ih hrest cache1 _ h2
      | false =>
        simp only [overlayAllowed, hval, List.filter_cons, ← h1]
        exact ih hrest cache1 _ h2

/-! ## Lemmas: the branches of the handler -/

theorem handler_unresolved (C : Config) (targetMap : GoMap Target) (net : Net) (st : Caches)
    (c : Ctx) (pfx : String) (hp : (Split c.OriginalURL '/')[1]? = some pfx)
    (hu : c.OriginalURL = "/" ∨ targetMap.get? pfx = none) :
    handler C targetMap net st c =
      { caches := st, calls := [],
        outcome := sendString 400 ("Prefix \"" ++ pfx ++ "\" not found in mappings") } := by
  unfold handler
  simp only [hp]
  cases ht : targetMap.get? pfx with
  | none => simp
  | some t =>
    rcases hu with hu | hu
    · simp [hu]
    · rw [ht] at hu; cases hu

theorem handler_resolved (C : Config) (targetMap : GoMap Target) (net : Net) (st : Caches)
    (c : Ctx) (pfx : String) (target : Target)
    (hp : (Split c.OriginalURL '/')[1]? = some pfx)
    (ht : targetMap.get? pfx = some target) (hu : c.OriginalURL ≠ "/") :
    handler C targetMap net st c =
      if c.Method = MethodOptions ∧
          ¬ bypassed target.Whitelist (sliceFrom c.OriginalURL (pfx.length + 1)) = true then
        preflight C net st c (sliceFrom c.OriginalURL (pfx.length + 1))
      else if ¬ bypassed target.Whitelist (sliceFrom c.OriginalURL (pfx.length + 1)) = true then
        authenticate C target net st c (sliceFrom c.OriginalURL (pfx.length + 1))
      else forward C target net st c (sliceFrom c.OriginalURL (pfx.length + 1)) none [] := by
  unfold handler
  simp only [hp, ht, hu, false_or, not_true_eq_false, if_false]

theorem handler_bypassed (C : Config) (targetMap : GoMap Target) (net : Net) (st : Caches)
    (c : Ctx) (pfx : String) (target : Target)
    (hp : (Split c.OriginalURL '/')[1]? = some pfx)
    (ht : targetMap.get? pfx = some target) (hu : c.OriginalURL ≠ "/")
    (hb : bypassed target.Whitelist (sliceFrom c.OriginalURL (pfx.length + 1)) = true) :
    handler C targetMap net st c =
      forward C target net st c (sliceFrom c.OriginalURL (pfx.length + 1)) none [] := by
  rw [handler_resolved C targetMap net st c pfx target hp ht hu]
  simp [hb]

theorem handler_preflight (C : Config) (targetMap : GoMap Target) (net : Net) (st : Caches)
    (c : Ctx) (pfx : String) (target : Target)
    (hp : (Split c.OriginalURL '/')[1]? = some pfx)
    (ht : targetMap.get? pfx = some target) (hu : c.OriginalURL ≠ "/")
    (hb : bypassed target.Whitelist (sliceFrom c.OriginalURL (pfx.length + 1)) = false)
    (hm : c.Method = MethodOptions) :
    handler C targetMap net st c =
      preflight C net st c (sliceFrom c.OriginalURL (pfx.length + 1)) := by
  rw [handler_resolved C targetMap net st c pfx target hp ht hu]
  simp [hb, hm]

theorem handler_authenticate (C : Config) (targetMap : GoMap Target) (net : Net)
    (st : Caches) (c : Ctx) (pfx : String) (target : Target)
    (hp : (Split c.OriginalURL '/')[1]? = some pfx)
    (ht : targetMap.get? pfx = some target) (hu : c.OriginalURL ≠ "/")
    (hb : bypassed target.Whitelist (sliceFrom c.OriginalURL (pfx.length + 1)) = false)
    (hm : c.Method ≠ MethodOptions) :
    handler C targetMap net st c =
      authenticate C target net st c (sliceFrom c.OriginalURL (pfx.length + 1)) := by
  rw [handler_resolved C targetMap net st c pfx target hp ht hu]
  simp [hb, hm]

theorem bypassed_iff (whitelist : List Glob) (path : String) :
    bypassed whitelist path = true ↔ ∃ w ∈ whitelist, w.Match path = true := by
  induction whitelist with
  | nil => simp [bypassed]
  | cons w rest ih =>
    by_cases h : w.Match path = true
    · simp [bypassed, h]
    · simp [bypassed, h, ih]

theorem forward_plain_calls (C : Config) (target : Target) (net : Net) (st : Caches)
    (c : Ctx) (path : String) :
    (forward C target net st c path none []).calls =
      match net.requestError c.Method (target.Url ++ path) with
      | some _ => []
      | none => [(Leg.backend, plainBackendRequest c target path)] := by
  unfold forward plainBackendRequest
  cases net.requestError c.Method (target.Url ++ path) with
  | some err => rfl
  | none =>
    simp only [List.nil_append]
    cases net.Do Leg.backend
        { Method := c.Method, URL := target.Url ++ path, Header := visitAllSet [] c.Header,
          Body := some c.Body } with
    | error err => rfl
    | ok resp =>
      simp only []
      cases setFirstValues [] resp.Header <;> rfl

theorem forward_calls_append (C : Config) (target : Target) (net : Net) (st : Caches)
    (c : Ctx) (path : String) (authResp : Option Response) (calls : List (Leg × Request)) :
    ∃ more, (forward C target net st c path authResp calls).calls = calls ++ more ∧
      ∀ call ∈ more, call.1 = Leg.backend ∧ call.2.URL = target.Url ++ path := by
  have hone : ∀ req : Request, req.URL = target.Url ++ path →
      ∀ call ∈ [(Leg.backend, req)], call.1 = Leg.backend ∧ call.2.URL = target.Url ++ path := by
    intro req hreq call hcall
    simp only [List.mem_singleton] at hcall
    subst hcall
    exact ⟨rfl, hreq⟩
  unfold forward
  cases net.requestError c.Method (target.Url ++ path) with
  | some err => exact ⟨[], by simp, fun call h => by cases h⟩
  | none =>
    simp only []
    split
    · exact ⟨[], by simp, fun call h => by cases h⟩
    · split
      · exact ⟨_, rfl, hone _ rfl⟩
      · split
        · exact ⟨_, rfl, hone _ rfl⟩
        · exact ⟨_, rfl, hone _ rfl⟩

theorem forward_no_call (C : Config) (target : Target) (net : Net) (st : Caches)
    (c : Ctx) (path : String)
    (h : (forward C target net st c path none []).calls = []) :
    ∃ err, (forward C target net st c path none []).outcome = sendString 500 err := by
  rw [forward_plain_calls] at h
  unfold forward
  cases hr : net.requestError c.Method (target.Url ++ path) with
  | some err => exact ⟨err, rfl⟩
  | none => rw [hr] at h; simp at h

theorem preflight_no_call (C : Config) (net : Net) (st : Caches) (c : Ctx) (path : String)
    (h : (preflight C net st c path).calls = []) :
    ∃ err, (preflight C net st c path).outcome = sendString 500 err := by
  unfold preflight at h ⊢
  cases hr : net.requestError MethodOptions (C.Auth.Url ++ path) with
  | some err => exact ⟨err, rfl⟩
  | none =>
    rw [hr] at h
    simp only [] at h
    split at h
    · simp at h
    · split at h <;> simp at h

theorem authenticate_no_call (C : Config) (target : Target) (net : Net) (st : Caches)
    (c : Ctx) (path : String)
    (h : (authenticate C target net st c path).calls = []) :
    ∃ err, (authenticate C target net st c path).outcome = sendString 500 err := by
  unfold authenticate at h ⊢
  cases hr : net.requestError c.Method (C.Auth.Url ++ path) with
  | some err => exact ⟨err, rfl⟩
  | none =>
    rw [hr] at h
    simp only [] at h
    split at h
    · simp at h
    · split at h
      · simp at h
      · obtain ⟨more, hm, -⟩ := forward_calls_append C target net st c path (some ‹Response›)
          [(Leg.auth, { Method := c.Method, URL := C.Auth.Url ++ path,
                        Header := visitAllSet [] c.Header, Body := some [] })]
        rw [hm] at h
        simp at h

/-! ## Lemmas: prefix resolution -/

theorem splitChars_ne_nil (sep : Char) (cs : List Char) : splitChars sep cs ≠ [] := by
  cases cs with
  | nil => simp [splitChars]
  | cons c rest =>
    simp only [splitChars]
    split
    · simp
    · split <;> simp

theorem splitChars_first (sep : Char) (piece rest : List Char) (h : sep ∉ piece) :
    splitChars sep (piece ++ sep :: rest) = piece :: splitChars sep rest := by
  induction piece with
  | nil => simp [splitChars]
  | cons c cs ih =>
    have hc : ¬ c = sep := fun e => h (e ▸ List.mem_cons_self _ _)
    have hcs : sep ∉ cs := fun m => h (List.mem_cons_of_mem _ m)
    simp only [List.cons_append, splitChars, hc, if_false, List.append_eq, ih hcs]

theorem Split_prefixed (p x : String) (h : '/' ∉ p.data) :
    (Split ("/" ++ p ++ "/" ++ x) '/')[1]? = some p := by
  have h1 : ("/" : String).data = ['/'] := rfl
  have hd : ("/" ++ p ++ "/" ++ x).data = [] ++ '/' :: (p.data ++ '/' :: x.data) := by
    simp only [String.data_append, h1, List.cons_append, List.nil_append, List.append_assoc]
  unfold Split
  rw [hd, splitChars_first '/' [] _ (List.not_mem_nil _), splitChars_first '/' p.data _ h]
  simp only [List.map_cons, List.getElem?_cons_succ, List.getElem?_cons_zero]

theorem sliceFrom_prefixed (p x : String) :
    sliceFrom ("/" ++ p ++ "/" ++ x) (p.length + 1) = "/" ++ x := by
  have h1 : ("/" : String).data = ['/'] := rfl
  have hd : ("/" ++ p ++ "/" ++ x).data = ('/' :: p.data) ++ '/' :: x.data := by
    simp only [String.data_append, h1, List.cons_append, List.nil_append, List.append_assoc]
  have hl : p.length + 1 = ('/' :: p.data).length := rfl
  unfold sliceFrom
  rw [hd, hl, List.drop_left]
  apply String.ext
  simp only [String.data_append, h1, List.cons_append, List.nil_append]

theorem prefixed_ne_root (p x : String) : "/" ++ p ++ "/" ++ x ≠ "/" := by
  intro e
  have h1 : ("/" : String).data = ['/'] := rfl
  have := congrArg (fun s => s.data.length) e
  simp only [String.data_append, h1, List.length_append, List.length_cons, List.length_nil]
    at this
  omega

theorem buildTargetMap_eq (compile : String → Option Glob) (mappings : List Mapping) :
    buildTargetMap compile mappings =
      setAll [] (mappings.map fun m => (m.Prefix, targetOf compile m)) := by
  unfold buildTargetMap
  suffices h : ∀ acc : GoMap Target,
      mappings.foldl
          (fun targetMap m =>
            GoMap.set targetMap m.Prefix
              { Url := m.Forward, Whitelist := compileWhitelist compile m.Whitelist })
          acc =
        setAll acc (mappings.map fun m => (m.Prefix, targetOf compile m)) from h []
  induction mappings with
  | nil => intro acc; rfl
  | cons m rest ih => intro acc; simp only [List.foldl_cons, List.map_cons, setAll, ih, targetOf]

theorem lastSet_append_cons {V : Type} (before after : List (String × V)) (key : String)
    (v : V) (h : ∀ kv ∈ after, kv.1 ≠ key) :
    lastSet (before ++ (key, v) :: after) key = some v := by
  have hafter : lastSet after key = none := by
    rw [lastSet_eq_none]
    intro u hu
    exact h (key, u) hu rfl
  induction before with
  | nil => simp [lastSet, hafter]
  | cons kv rest ih =>
    obtain ⟨k, w⟩ := kv
    simp only [List.cons_append, lastSet, List.append_eq, ih]

theorem targetMap_get?_last (compile : String → Option Glob) (before after : List Mapping)
    (m : Mapping) (h : ∀ m' ∈ after, m'.Prefix ≠ m.Prefix) :
    (buildTargetMap compile (before ++ m :: after)).get? m.Prefix =
      some (targetOf compile m) := by
  rw [buildTargetMap_eq, get?_setAll, List.map_append, List.map_cons,
    lastSet_append_cons]
  · rfl
  · intro kv hkv
    obtain ⟨m', hm', rfl⟩ := List.mem_map.1 hkv
    exact h m' hm'

/-! ## Lemmas: where the backend is addressed -/

theorem forward_backend_url (C : Config) (target : Target) (net : Net) (st : Caches)
    (c : Ctx) (path : String) (authResp : Option Response) (calls : List (Leg × Request))
    (call : Leg × Request)
    (h : call ∈ (forward C target net st c path authResp calls).calls) :
    call ∈ calls ∨ (call.1 = Leg.backend ∧ call.2.URL = target.Url ++ path) := by
  unfold forward at h
  cases hr : net.requestError c.Method (target.Url ++ path) with
  | some err => rw [hr] at h; exact Or.inl h
  | none =>
    rw [hr] at h
    simp only [] at h
    split at h
    · exact Or.inl h
    · split at h
      · simp only [List.mem_append, List.mem_singleton] at h
        rcases h with h | h
        · exact Or.inl h
        · subst h; exact Or.inr ⟨rfl, rfl⟩
      · split at h <;>
        · simp only [List.mem_append, List.mem_singleton] at h
          rcases h with h | h
          · exact Or.inl h
          · subst h; exact Or.inr ⟨rfl, rfl⟩

theorem preflight_calls_leg (C : Config) (net : Net) (st : Caches) (c : Ctx) (path : String)
    (call : Leg × Request) (h : call ∈ (preflight C net st c path).calls) :
    call.1 = Leg.preflight := by
  unfold preflight at h
  cases hr : net.requestError MethodOptions (C.Auth.Url ++ path) with
  | some err => rw [hr] at h; cases h
  | none =>
    rw [hr] at h
    simp only [] at h
    split at h
    · simp only [List.mem_singleton] at h; subst h; rfl
    · split at h <;> (simp only [List.mem_singleton] at h; subst h; rfl)

theorem authenticate_backend_url (C : Config) (target : Target) (net : Net) (st : Caches)
    (c : Ctx) (path : String) (call : Leg × Request)
    (h : call ∈ (authenticate C target net st c path).calls) :
    call.1 = Leg.auth ∨ (call.1 = Leg.backend ∧ call.2.URL = target.Url ++ path) := by
  unfold authenticate at h
  cases hr : net.requestError c.Method (C.Auth.Url ++ path) with
  | some err => rw [hr] at h; cases h
  | none =>
    rw [hr] at h
    simp only [] at h
    split at h
    · simp only [List.mem_singleton] at h; subst h; exact Or.inl rfl
    · split at h
      · simp only [List.mem_singleton] at h; subst h; exact Or.inl rfl
      · rcases forward_backend_url _ _ _ _ _ _ _ _ _ h with h1 | h1
        · simp only [List.mem_singleton] at h1; subst h1; exact Or.inl rfl
        · exact Or.inr h1

theorem handler_backend_url (C : Config) (targetMap : GoMap Target) (net : Net)
    (st : Caches) (c : Ctx) (pfx : String) (target : Target)
    (hp : (Split c.OriginalURL '/')[1]? = some pfx)
    (ht : targetMap.get? pfx = some target) (hu : c.OriginalURL ≠ "/")
    (req : Request) (h : (Leg.backend, req) ∈ (handler C targetMap net st c).calls) :
    req.URL = target.Url ++ remainder c pfx := by
  rw [handler_resolved C targetMap net st c pfx target hp ht hu] at h
  split at h
  · have := preflight_calls_leg _ _ _ _ _ _ h
    cases this
  · split at h
    · rcases authenticate_backend_url _ _ _ _ _ _ _ h with h1 | h1
      · cases h1
      · exact h1.2
    · rcases forward_backend_url _ _ _ _ _ _ _ _ _ h with h1 | h1
      · cases h1
      · exact h1.2

/-! ## Lemmas: what the built headers hold -/

theorem lastSet_map_value {V W : Type} (g : V → W) (ops : List (String × V)) (key : String) :
    lastSet (ops.map fun kv => (kv.1, g kv.2)) key = (lastSet ops key).map g := by
  induction ops with
  | nil => rfl
  | cons kv rest ih =>
    obtain ⟨k, v⟩ := kv
    simp only [List.map_cons, lastSet, ih]
    cases lastSet rest key with
    | some w => rfl
    | none => by_cases e : k = key <;> simp [e]

theorem lastSet_filter_map {A V : Type} (F : A → String × V) (p : A → Bool) (key : String)
    (ops : List A) (h : ∀ a ∈ ops, (F a).1 = key → p a = true) :
    lastSet ((ops.filter p).map F) key = lastSet (ops.map F) key := by
  induction ops with
  | nil => rfl
  | cons a rest ih =>
    have hrest : ∀ b ∈ rest, (F b).1 = key → p b = true :=
      fun b hb => h b (List.mem_cons_of_mem _ hb)
    have ih1 := ih hrest
    by_cases hp : p a = true
    · rw [List.filter_cons_of_pos hp]
      simp only [List.map_cons]
      cases hF : F a with
      | mk k v => simp only [lastSet, ih1]
    · have hne : ¬ (F a).1 = key := fun e => hp (h a (List.mem_cons_self _ _) e)
      rw [List.filter_cons_of_neg hp]
      simp only [List.map_cons]
      cases hF : F a with
      | mk k v =>
        rw [hF] at hne
        simp only [lastSet, ih1]
        cases lastSet (rest.map F) key with
        | some w => rfl
        | none => simp only [hne, if_false]

theorem lastSet_filter_none {A V : Type} (F : A → String × V) (p : A → Bool) (key : String)
    (ops : List A) (h : ∀ a ∈ ops, (F a).1 = key → p a = false) :
    lastSet ((ops.filter p).map F) key = none := by
  rw [lastSet_eq_none]
  intro v hv
  obtain ⟨a, ha, hF⟩ := List.mem_map.1 hv
  obtain ⟨ha1, ha2⟩ := List.mem_filter.1 ha
  have := h a ha1 (by rw [hF])
  rw [this] at ha2
  cases ha2

theorem values_visitAllSet (pairs : List (String × String)) (name : String) :
    Header.Values (visitAllSet [] pairs) name = (lastSent pairs name).toList := by
  unfold Header.Values lastSent
  rw [visitAllSet_eq, get?_setAll]
  have := lastSet_map_value (fun v : String => [v])
    (pairs.map fun kv => (CanonicalMIMEHeaderKey kv.1, kv.2)) (CanonicalMIMEHeaderKey name)
  simp only [List.map_map] at this
  have e : ((fun kv : String × String => (kv.1, [kv.2])) ∘
      fun kv : String × String => (CanonicalMIMEHeaderKey kv.1, kv.2)) =
      fun kv => (CanonicalMIMEHeaderKey kv.1, [kv.2]) := rfl
  rw [e] at this
  rw [this]
  cases lastSet (pairs.map fun kv => (CanonicalMIMEHeaderKey kv.1, kv.2))
    (CanonicalMIMEHeaderKey name) <;> rfl

theorem lastSent_isSome_iff (pairs : List (String × String)) (name : String) :
    (lastSent pairs name ≠ none) ↔
      ∃ kv ∈ pairs, CanonicalMIMEHeaderKey kv.1 = CanonicalMIMEHeaderKey name := by
  unfold lastSent
  rw [Ne, lastSet_eq_none]
  constructor
  · intro h
    by_contra hn
    apply h
    intro v hv
    obtain ⟨kv, hkv, e⟩ := List.mem_map.1 hv
    exact hn ⟨kv, hkv, (Prod.mk.inj e).1⟩
  · rintro ⟨kv, hkv, e⟩ h
    exact h kv.2 (List.mem_map.2 ⟨kv, hkv, by rw [e]⟩)

theorem setsFirstValues_setFirstValues (hdr : Header) (hne : ∀ kv ∈ hdr, kv.2 ≠ []) :
    ∃ h, setFirstValues [] hdr = some h ∧ SetsFirstValues h hdr := by
  obtain ⟨sets, hsets, hall⟩ := setFirstValues_eq hdr hne []
  exact ⟨sets, by simpa using hsets, hall⟩

theorem bypassed_eq_false (whitelist : List Glob) (path : String)
    (h : ∀ w ∈ whitelist, w.Match path = false) : bypassed whitelist path = false := by
  cases hb : bypassed whitelist path with
  | false => rfl
  | true =>
    obtain ⟨w, hw, hm⟩ := (bypassed_iff whitelist path).1 hb
    rw [h w hw] at hm
    cases hm

/-! ## Lemmas: the overlay -/

theorem overlay_get?_allowed (L : List String) (hdr base : Header) (H V : String)
    (vs : List String)
    (hnd : (hdr.map fun kv => CanonicalMIMEHeaderKey kv.1).Nodup)
    (hH : (H, V :: vs) ∈ hdr)
    (hd : decision DefaultAllowedAuthorizationHeaders L H = true) :
    (setAll base
        ((hdr.filter fun kv => decision DefaultAllowedAuthorizationHeaders L kv.1).map
          fun kv => (CanonicalMIMEHeaderKey kv.1, [kv.2.headD ""]))).get?
      (CanonicalMIMEHeaderKey H) = some [V] := by
  rw [get?_setAll, lastSet_of_nodup _ (CanonicalMIMEHeaderKey H) [V]]
  · rfl
  · rw [List.map_map]
    exact List.Nodup.sublist (List.Sublist.map _ (List.filter_sublist _)) hnd
  · exact List.mem_map.2 ⟨(H, V :: vs), List.mem_filter.2 ⟨hH, hd⟩, rfl⟩

theorem overlay_get?_refused (L : List String) (hdr base : Header) (H : String)
    (hd : decision DefaultAllowedAuthorizationHeaders L H = false) :
    (setAll base
        ((hdr.filter fun kv => decision DefaultAllowedAuthorizationHeaders L kv.1).map
          fun kv => (CanonicalMIMEHeaderKey kv.1, [kv.2.headD ""]))).get?
      (CanonicalMIMEHeaderKey H) = base.get? (CanonicalMIMEHeaderKey H) := by
  rw [get?_setAll, lastSet_filter_none]
  · rfl
  · intro kv _ e
    rw [decision_of_canonical_eq DefaultAllowedAuthorizationHeaders L e, hd]

theorem forward_overlay_calls (C : Config) (target : Target) (net : Net) (st : Caches)
    (c : Ctx) (path : String) (authResp : Response) (calls : List (Leg × Request))
    (header1 : Header)
    (hbuild : net.requestError c.Method (target.Url ++ path) = none)
    (hov : (overlayAllowed C.Auth.AllowedAuthorizationHeaders
        st.allowedAuthorizationHeadersCache (visitAllSet [] c.Header) authResp.Header).1 =
      some header1) :
    (forward C target net st c path (some authResp) calls).calls =
      calls ++ [(Leg.backend,
        { Method := c.Method, URL := target.Url ++ path, Header := header1,
          Body := some c.Body })] := by
  unfold forward
  simp only [hbuild]
  cases hpair : overlayAllowed C.Auth.AllowedAuthorizationHeaders
      st.allowedAuthorizationHeadersCache (visitAllSet [] c.Header) authResp.Header with
  | mk o cache1 =>
    rw [hpair] at hov
    simp only at hov
    subst hov
    simp only []
    split
    · rfl
    · split <;> rfl

/-! ## Lemmas: the requests to the auth endpoint -/

theorem values_visitAllSetAllowed (L : List String) (cache : GoMap Bool)
    (pairs : List (String × String)) (name : String)
    (hs : CacheSound DefaultAllowedRequestHeaders L cache) :
    Header.Values (visitAllSetAllowed L cache [] pairs).1 name =
      if decision DefaultAllowedRequestHeaders L name = true then
        (lastSent pairs name).toList
      else [] := by
  rw [(visitAllSetAllowed_eq L pairs cache [] hs).1]
  unfold Header.Values
  rw [get?_setAll]
  by_cases hd : decision DefaultAllowedRequestHeaders L name = true
  · rw [if_pos hd, lastSet_filter_map (fun kv : String × String =>
        (CanonicalMIMEHeaderKey kv.1, [kv.2]))]
    · have := values_visitAllSet pairs name
      unfold Header.Values at this
      rw [visitAllSet_eq, get?_setAll] at this
      exact this
    · intro kv _ e
      rw [decision_of_canonical_eq DefaultAllowedRequestHeaders L e, hd]
  · rw [if_neg hd, lastSet_filter_none]
    · rfl
    · intro kv _ e
      rw [decision_of_canonical_eq DefaultAllowedRequestHeaders L e]
      simpa using hd

theorem preflight_calls (C : Config) (net : Net) (st : Caches) (c : Ctx) (path : String) :
    (preflight C net st c path).calls =
      match net.requestError MethodOptions (C.Auth.Url ++ path) with
      | some _ => []
      | none => [(Leg.preflight, preflightRequest C st c path)] := by
  unfold preflight preflightRequest
  cases net.requestError MethodOptions (C.Auth.Url ++ path) with
  | some err => rfl
  | none =>
    simp only []
    split
    · rfl
    · split <;> rfl

theorem authenticate_calls (C : Config) (target : Target) (net : Net) (st : Caches)
    (c : Ctx) (path : String) :
    match net.requestError c.Method (C.Auth.Url ++ path) with
    | some _ => (authenticate C target net st c path).calls = []
    | none =>
      ∃ more, (authenticate C target net st c path).calls =
          (Leg.auth, authRequest C c path) :: more ∧
        ∀ call ∈ more, call.1 = Leg.backend := by
  unfold authenticate authRequest
  cases net.requestError c.Method (C.Auth.Url ++ path) with
  | some err => rfl
  | none =>
    simp only []
    split
    · exact ⟨[], rfl, fun call h => by cases h⟩
    · split
      · exact ⟨[], rfl, fun call h => by cases h⟩
      · rename_i authResp _ _
        obtain ⟨more, hmore, hleg⟩ :=
          forward_calls_append C target net st c path (some authResp)
            [(Leg.auth, { Method := c.Method, URL := C.Auth.Url ++ path,
                          Header := visitAllSet [] c.Header, Body := some [] })]
        exact ⟨more, by rw [hmore]; rfl, fun call hcall => (hleg call hcall).1⟩

/-! ## Lemmas: the rejection reply -/

theorem read_whole (body : Bytes) :
    (Reader.Read { chunks := [body] } (List.replicate body.length 0)).1 = body := by
  simp [Reader.Read]

/-- Where the rejection reply does carry the auth response's body: the declared length is
the length of the body and the one `Read` delivers all of it. The handler then answers
401 with that body, and the auth endpoint is the only one called. -/
theorem rejection_reply_when_body_read_whole (C : Config) (targetMap : GoMap Target)
    (net : Net) (st : Caches) (c : Ctx) (pfx : String) (target : Target)
    (authResp : Response) (body : Bytes)
    (hp : (Split c.OriginalURL '/')[1]? = some pfx)
    (ht : targetMap.get? pfx = some target) (hu : c.OriginalURL ≠ "/")
    (hm : c.Method ≠ MethodOptions)
    (hw : ∀ w ∈ target.Whitelist, w.Match (remainder c pfx) = false)
    (hbuild : net.requestError c.Method (C.Auth.Url ++ remainder c pfx) = none)
    (hdo : net.Do Leg.auth (authRequest C c (remainder c pfx)) = Except.ok authResp)
    (hstatus : authResp.StatusCode ≠ 200)
    (hne : ∀ kv ∈ authResp.Header, kv.2 ≠ [])
    (hbody : authResp.Body = { chunks := [body] })
    (hlen : authResp.ContentLength = (body.length : Int)) :
    ∃ h, handler C targetMap net st c =
        { caches := st, calls := [(Leg.auth, authRequest C c (remainder c pfx))],
          outcome := Outcome.replied { Status := 401, Header := h, Body := Sent.bytes body } } ∧
      SetsFirstValues h authResp.Header ∧
      Reader.content authResp.Body = body := by
  have hb := bypassed_eq_false target.Whitelist (remainder c pfx) hw
  have he : handler C targetMap net st c = authenticate C target net st c (remainder c pfx) :=
    handler_authenticate C targetMap net st c pfx target hp ht hu hb hm
  obtain ⟨h, hset, hold⟩ := setsFirstValues_setFirstValues authResp.Header hne
  refine ⟨h, ?_, hold, by rw [hbody]; simp [Reader.content]⟩
  have hrej : rejected authResp =
      Outcome.replied { Status := 401, Header := h, Body := Sent.bytes body } := by
    unfold rejected
    have hnn : ¬ ((body.length : Int) < 0) := by omega
    simp only [hset, hlen, hnn, if_false, Int.toNat_ofNat, hbody, read_whole]
  rw [he]
  unfold authRequest at hdo
  unfold authenticate authRequest
  simp only [hbuild, hdo, hstatus, ne_eq, not_false_eq_true, if_true, hrej]

/-! ## C8: the allow-list of each direction -/

/-- C8. In every cache state reachable from the empty cache by calls with the same list,
`validateRequestHeaderAllowed` (resp. `validateAuthorizationHeaderAllowed`) returns true
exactly when the lowercased name is the lowercased form of an element of the configured
list or of `DefaultAllowedRequestHeaders` (resp. `DefaultAllowedAuthorizationHeaders`);
in particular every default, `Origin` and `Set-Cookie` among them, is allowed whatever
the configured list. -/
theorem header_policy_is_list_with_defaults
    (L₁ L₂ : List String) (h : String) (reqCache authCache : GoMap Bool)
    (hreq : ReachableBy validateRequestHeaderAllowed L₁ reqCache)
    (hauth : ReachableBy validateAuthorizationHeaderAllowed L₂ authCache) :
    ((validateRequestHeaderAllowed reqCache h L₁).1 = true ↔
        ∃ a ∈ L₁ ++ DefaultAllowedRequestHeaders, ToLower a = ToLower h) ∧
    ((validateAuthorizationHeaderAllowed authCache h L₂).1 = true ↔
        ∃ a ∈ L₂ ++ DefaultAllowedAuthorizationHeaders, ToLower a = ToLower h) ∧
    (∀ d ∈ DefaultAllowedRequestHeaders,
        (validateRequestHeaderAllowed reqCache d L₁).1 = true) ∧
    (∀ d ∈ DefaultAllowedAuthorizationHeaders,
        (validateAuthorizationHeaderAllowed authCache d L₂).1 = true) ∧
    (validateRequestHeaderAllowed reqCache "Origin" L₁).1 = true ∧
    (validateAuthorizationHeaderAllowed authCache "Set-Cookie" L₂).1 = true := by
  have sreq := memo_reachable_sound memoises_request hreq
  have sauth := memo_reachable_sound memoises_authorization hauth
  have req : ∀ x, (validateRequestHeaderAllowed reqCache x L₁).1 = true ↔
      ∃ a ∈ L₁ ++ DefaultAllowedRequestHeaders, ToLower a = ToLower x := by
    intro x
    rw [memo_fst memoises_request L₁ reqCache x sreq]
    exact decision_iff _ _ _
  have auth : ∀ x, (validateAuthorizationHeaderAllowed authCache x L₂).1 = true ↔
      ∃ a ∈ L₂ ++ DefaultAllowedAuthorizationHeaders, ToLower a = ToLower x := by
    intro x
    rw [memo_fst memoises_authorization L₂ authCache x sauth]
    exact decision_iff _ _ _
  refine ⟨req h, auth h, ?_, ?_, ?_, ?_⟩
  · intro d hd
    exact (req d).2 ⟨d, List.mem_append_right _ hd, rfl⟩
  · intro d hd
    exact (auth d).2 ⟨d, List.mem_append_right _ hd, rfl⟩
  · exact (req "Origin").2
      ⟨"Origin", List.mem_append_right _ (by simp [DefaultAllowedRequestHeaders]), rfl⟩
  · exact (auth "Set-Cookie").2
      ⟨"Set-cookie", List.mem_append_right _ (by simp [DefaultAllowedAuthorizationHeaders]),
        by decide⟩

/-- C8 at a concrete input: with `X-User` configured for both directions and caches that
have seen one call each, the name `x-user` is allowed in both directions. -/
theorem header_policy_is_list_with_defaults_witness :
    (validateRequestHeaderAllowed (validateRequestHeaderAllowed [] "Accept" ["X-User"]).2
        "x-user" ["X-User"]).1 = true ∧
    (validateAuthorizationHeaderAllowed
        (validateAuthorizationHeaderAllowed [] "Server" ["X-User"]).2
        "x-user" ["X-User"]).1 = true :=
  have t := header_policy_is_list_with_defaults ["X-User"] ["X-User"] "x-user"
    (validateRequestHeaderAllowed [] "Accept" ["X-User"]).2
    (validateAuthorizationHeaderAllowed [] "Server" ["X-User"]).2
    (ReachableBy.call "Accept" ReachableBy.empty)
    (ReachableBy.call "Server" ReachableBy.empty)
  ⟨t.1.2 ⟨"X-User", by simp, by decide⟩, t.2.1.2 ⟨"X-User", by simp, by decide⟩⟩

/-! ## C9: case-insensitive and stable -/

/-- C9. In every reachable cache state of a direction and for a fixed allow-list, two
spellings of a name with the same lowercased form (such as `Origin` and `origin`) get
the same answer; asking again for a name after any sequence of further calls gives the
answer of the first call; and a call keeps every entry the cache already has. -/
theorem header_policy_case_insensitive_and_stable
    (L₁ L₂ : List String) (reqCache authCache : GoMap Bool)
    (hreq : ReachableBy validateRequestHeaderAllowed L₁ reqCache)
    (hauth : ReachableBy validateAuthorizationHeaderAllowed L₂ authCache) :
    (∀ h h', ToLower h = ToLower h' →
        (validateRequestHeaderAllowed reqCache h L₁).1 =
          (validateRequestHeaderAllowed reqCache h' L₁).1) ∧
    (∀ h h', ToLower h = ToLower h' →
        (validateAuthorizationHeaderAllowed authCache h L₂).1 =
          (validateAuthorizationHeaderAllowed authCache h' L₂).1) ∧
    (validateRequestHeaderAllowed reqCache "Origin" L₁).1 =
        (validateRequestHeaderAllowed reqCache "origin" L₁).1 ∧
    (validateAuthorizationHeaderAllowed authCache "Origin" L₂).1 =
        (validateAuthorizationHeaderAllowed authCache "origin" L₂).1 ∧
    (∀ h hs,
        (validateRequestHeaderAllowed
            (afterCalls validateRequestHeaderAllowed L₁
              (validateRequestHeaderAllowed reqCache h L₁).2 hs) h L₁).1 =
          (validateRequestHeaderAllowed reqCache h L₁).1) ∧
    (∀ h hs,
        (validateAuthorizationHeaderAllowed
            (afterCalls validateAuthorizationHeaderAllowed L₂
              (validateAuthorizationHeaderAllowed authCache h L₂).2 hs) h L₂).1 =
          (validateAuthorizationHeaderAllowed authCache h L₂).1) ∧
    (∀ h k v, reqCache.get? k = some v →
        (validateRequestHeaderAllowed reqCache h L₁).2.get? k = some v) ∧
    (∀ h k v, authCache.get? k = some v →
        (validateAuthorizationHeaderAllowed authCache h L₂).2.get? k = some v) := by
  have sreq := memo_reachable_sound memoises_request hreq
  have sauth := memo_reachable_sound memoises_authorization hauth
  have req : ∀ h h', ToLower h = ToLower h' →
      (validateRequestHeaderAllowed reqCache h L₁).1 =
        (validateRequestHeaderAllowed reqCache h' L₁).1 := by
    intro h h' e
    rw [memo_fst memoises_request L₁ reqCache h sreq,
      memo_fst memoises_request L₁ reqCache h' sreq]
    exact decision_congr _ _ e
  have auth : ∀ h h', ToLower h = ToLower h' →
      (validateAuthorizationHeaderAllowed authCache h L₂).1 =
        (validateAuthorizationHeaderAllowed authCache h' L₂).1 := by
    intro h h' e
    rw [memo_fst memoises_authorization L₂ authCache h sauth,
      memo_fst memoises_authorization L₂ authCache h' sauth]
    exact decision_congr _ _ e
  refine ⟨req, auth, req _ _ (by decide), auth _ _ (by decide), ?_, ?_, ?_, ?_⟩
  · intro h hs
    have r := reachable_afterCalls hs (ReachableBy.call h hreq)
    rw [memo_fst memoises_request L₁ _ h (memo_reachable_sound memoises_request r),
      memo_fst memoises_request L₁ reqCache h sreq]
  · intro h hs
    have r := reachable_afterCalls hs (ReachableBy.call h hauth)
    rw [memo_fst memoises_authorization L₂ _ h
        (memo_reachable_sound memoises_authorization r),
      memo_fst memoises_authorization L₂ authCache h sauth]
  · intro h k v hk
    rw [memo_snd_get? memoises_request, hk]
  · intro h k v hk
    rw [memo_snd_get? memoises_authorization, hk]

/-- C9 at a concrete input: after the calls for `Accept`, then `COOKIE`, then `X-Other`,
the answer for `cookie` is the answer `COOKIE` got. -/
theorem header_policy_case_insensitive_and_stable_witness :
    (validateRequestHeaderAllowed
        (afterCalls validateRequestHeaderAllowed []
          (validateRequestHeaderAllowed (validateRequestHeaderAllowed [] "Accept" []).2
            "COOKIE" []).2 ["X-Other"]) "cookie" []).1 =
      (validateRequestHeaderAllowed (validateRequestHeaderAllowed [] "Accept" []).2
        "COOKIE" []).1 :=
  have r : ReachableBy validateRequestHeaderAllowed []
      (validateRequestHeaderAllowed [] "Accept" []).2 :=
    ReachableBy.call "Accept" ReachableBy.empty
  have t := header_policy_case_insensitive_and_stable [] []
    (validateRequestHeaderAllowed [] "Accept" []).2 [] r ReachableBy.empty
  have r2 := reachable_afterCalls ["X-Other"] (ReachableBy.call "COOKIE" r)
  have t2 := header_policy_case_insensitive_and_stable [] [] _ [] r2 ReachableBy.empty
  (t2.1 "cookie" "COOKIE" (by decide)).trans (t.2.2.2.2.1 "COOKIE" ["X-Other"])

/-! ## C3: a whitelisted path never reaches the auth endpoint -/

/-- C3. For a request of any method whose prefix resolves to a target and whose remainder
path is matched by one of the target's compiled patterns, every outbound call the handler
makes is the call to the backend at `target.Url + path`, there is at most one, and there
is exactly that one whenever the backend request can be built: no call goes to the auth
endpoint. -/
theorem whitelisted_request_skips_auth (C : Config) (targetMap : GoMap Target) (net : Net)
    (st : Caches) (c : Ctx) (pfx : String) (target : Target)
    (hp : (Split c.OriginalURL '/')[1]? = some pfx)
    (ht : targetMap.get? pfx = some target) (hu : c.OriginalURL ≠ "/")
    (hw : ∃ w ∈ target.Whitelist, w.Match (remainder c pfx) = true) :
    (∀ call ∈ (handler C targetMap net st c).calls,
        call = (Leg.backend, plainBackendRequest c target (remainder c pfx)) ∧
          call.1 ≠ Leg.auth ∧ call.1 ≠ Leg.preflight ∧
          call.2.URL = target.Url ++ remainder c pfx) ∧
    (handler C targetMap net st c).calls.length ≤ 1 ∧
    (net.requestError c.Method (target.Url ++ remainder c pfx) = none →
      (handler C targetMap net st c).calls =
        [(Leg.backend, plainBackendRequest c target (remainder c pfx))]) := by
  have hb := (bypassed_iff target.Whitelist (remainder c pfx)).2 hw
  have he := handler_bypassed C targetMap net st c pfx target hp ht hu hb
  have hc := forward_plain_calls C target net st c (remainder c pfx)
  rw [he]
  change (∀ call ∈ (forward C target net st c (remainder c pfx) none []).calls, _) ∧
    (forward C target net st c (remainder c pfx) none []).calls.length ≤ 1 ∧
    (_ → (forward C target net st c (remainder c pfx) none []).calls = _)
  rw [hc]
  cases hr : net.requestError c.Method (target.Url ++ remainder c pfx) with
  | some err => simp
  | none =>
    refine ⟨?_, by simp, fun _ => rfl⟩
    intro call hcall
    simp only [List.mem_singleton] at hcall
    subst hcall
    exact ⟨rfl, (fun h => by cases h), (fun h => by cases h), rfl⟩

/-- C3 at the scenario: `OPTIONS /svc/public/health` goes to the backend only. -/
theorem whitelisted_request_skips_auth_witness :
    (handler exampleConfig (buildTargetMap compileExample exampleConfig.Mappings)
        (exampleNet
          { StatusCode := 403, Header := [], ContentLength := 0, Body := { chunks := [] } }
          { StatusCode := 204, Header := [], ContentLength := 0, Body := { chunks := [] } })
        emptyCaches
        { Method := "OPTIONS", OriginalURL := "/svc/public/health",
          Header := [("Origin", "http://app.local")], Body := [] }).calls.length ≤ 1 :=
  (whitelisted_request_skips_auth exampleConfig
    (buildTargetMap compileExample exampleConfig.Mappings)
    (exampleNet
      { StatusCode := 403, Header := [], ContentLength := 0, Body := { chunks := [] } }
      { StatusCode := 204, Header := [], ContentLength := 0, Body := { chunks := [] } })
    emptyCaches
    { Method := "OPTIONS", OriginalURL := "/svc/public/health",
      Header := [("Origin", "http://app.local")], Body := [] }
    "svc" (targetOf compileExample { Forward := "http://backend.local", Prefix := "svc",
                                     Whitelist := ["/public/*"] })
    (by decide) (by rfl) (by decide)
    ⟨{ Match := fun path => "/public/".data.isPrefixOf path.data },
      by simp [targetOf, compileWhitelist, compileExample], by decide⟩).2.1

/-! ## C5: the 400 of an unresolved prefix -/

/-- C5 as stated fails: `GET /svc/public/health` has the configured prefix `svc`, and the
handler answers 400 all the same, because that is the status of the backend. -/
theorem bad_request_from_backend :
    (handler exampleConfig (buildTargetMap compileExample exampleConfig.Mappings)
        (exampleNet
          { StatusCode := 200, Header := [], ContentLength := 0, Body := { chunks := [] } }
          { StatusCode := 400, Header := [], ContentLength := 0, Body := { chunks := [] } })
        emptyCaches
        { Method := "GET", OriginalURL := "/svc/public/health", Header := [],
          Body := [] }).outcome =
      Outcome.replied { Status := 400, Header := [], Body := Sent.stream { chunks := [] } } ∧
    (Split "/svc/public/health" '/')[1]? = some "svc" ∧
    ((buildTargetMap compileExample exampleConfig.Mappings).get? "svc").isSome = true ∧
    "svc" ∈ exampleConfig.Mappings.map Mapping.Prefix ∧
    "/svc/public/health" ≠ "/" := by
  refine ⟨by decide, by decide, by decide, by decide, by decide⟩

/-- C5, amended. The handler answers 400 without having made an outbound call exactly when
the first segment of the URL is not a key of `targetMap` or the URL is `/`; the run is then
the reply 400 with the body `Prefix "<prefix>" not found in mappings`, no outbound call and
the caches untouched. -/
theorem bad_request_without_call_iff_unresolved (C : Config) (targetMap : GoMap Target)
    (net : Net) (st : Caches) (c : Ctx) :
    (((handler C targetMap net st c).calls = [] ∧
        ∃ r, (handler C targetMap net st c).outcome = Outcome.replied r ∧ r.Status = 400) ↔
      ∃ pfx, (Split c.OriginalURL '/')[1]? = some pfx ∧
        (c.OriginalURL = "/" ∨ targetMap.get? pfx = none)) ∧
    (∀ pfx, (Split c.OriginalURL '/')[1]? = some pfx →
      (c.OriginalURL = "/" ∨ targetMap.get? pfx = none) →
      handler C targetMap net st c =
        { caches := st, calls := [],
          outcome :=
            Outcome.replied
              { Status := 400, Header := [],
                Body := Sent.string ("Prefix \"" ++ pfx ++ "\" not found in mappings") } }) := by
  refine ⟨⟨?_, ?_⟩, ?_⟩
  · rintro ⟨hcalls, r, hr, hs⟩
    cases hp : (Split c.OriginalURL '/')[1]? with
    | none =>
      have : (handler C targetMap net st c).outcome = Outcome.panicked := by
        unfold handler; simp only [hp]
      rw [this] at hr; cases hr
    | some pfx =>
      refine ⟨pfx, rfl, ?_⟩
      by_contra hn
      simp only [not_or] at hn
      obtain ⟨hu, ht⟩ := hn
      cases htm : targetMap.get? pfx with
      | none => exact ht htm
      | some target =>
        have he := handler_resolved C targetMap net st c pfx target hp htm hu
        have h500 : ∃ err, (handler C targetMap net st c).outcome = sendString 500 err := by
          rw [he] at hcalls ⊢
          split
          · rename_i h1; rw [if_pos h1] at hcalls
            exact preflight_no_call _ _ _ _ _ hcalls
          · rename_i h1; rw [if_neg h1] at hcalls
            split
            · rename_i h2; rw [if_pos h2] at hcalls
              exact authenticate_no_call _ _ _ _ _ _ hcalls
            · rename_i h2; rw [if_neg h2] at hcalls
              exact forward_no_call _ _ _ _ _ _ hcalls
        obtain ⟨err, herr⟩ := h500
        rw [herr] at hr
        simp only [sendString, Outcome.replied.injEq] at hr
        rw [← hr] at hs
        simp at hs
  · rintro ⟨pfx, hp, hu⟩
    rw [handler_unresolved C targetMap net st c pfx hp hu]
    exact ⟨rfl, _, rfl, rfl⟩
  · intro pfx hp hu
    exact handler_unresolved C targetMap net st c pfx hp hu

/-- C5 at the scenario: `/unknown/x` is answered 400 naming `unknown`, with no call. -/
theorem bad_request_names_unknown :
    handler exampleConfig (buildTargetMap compileExample exampleConfig.Mappings)
        (exampleNet
          { StatusCode := 200, Header := [], ContentLength := 0, Body := { chunks := [] } }
          { StatusCode := 200, Header := [], ContentLength := 0, Body := { chunks := [] } })
        emptyCaches
        { Method := "GET", OriginalURL := "/unknown/x", Header := [], Body := [] } =
      { caches := emptyCaches, calls := [],
        outcome :=
          Outcome.replied
            { Status := 400, Header := [],
              Body := Sent.string ("Prefix \"" ++ "unknown" ++ "\" not found in mappings") } } :=
  (bad_request_without_call_iff_unresolved exampleConfig
    (buildTargetMap compileExample exampleConfig.Mappings)
    (exampleNet
      { StatusCode := 200, Header := [], ContentLength := 0, Body := { chunks := [] } }
      { StatusCode := 200, Header := [], ContentLength := 0, Body := { chunks := [] } })
    emptyCaches
    { Method := "GET", OriginalURL := "/unknown/x", Header := [], Body := [] }).2
    "unknown" (by decide) (Or.inr (by rfl))

/-! ## C4: which target a prefixed URL resolves to -/

/-- C4 as stated fails twice. With two mappings of prefix `svc`, `/svc/x` is sent to the
second one's `Forward`, not to the first one's; and with the prefix `api/v1`,
`/api/v1/x` resolves to nothing and is answered 400 naming `api`. -/
theorem later_mapping_or_slash_defeats_resolution :
    (handler
        { exampleConfig with
          Mappings := [{ Forward := "http://a.local", Prefix := "svc", Whitelist := ["/*"] },
                       { Forward := "http://b.local", Prefix := "svc", Whitelist := ["/*"] }] }
        (buildTargetMap compileExample
          [{ Forward := "http://a.local", Prefix := "svc", Whitelist := ["/*"] },
           { Forward := "http://b.local", Prefix := "svc", Whitelist := ["/*"] }])
        (exampleNet
          { StatusCode := 200, Header := [], ContentLength := 0, Body := { chunks := [] } }
          { StatusCode := 200, Header := [], ContentLength := 0, Body := { chunks := [] } })
        emptyCaches
        { Method := "GET", OriginalURL := "/" ++ "svc" ++ "/" ++ "x", Header := [],
          Body := [] }).calls.map (fun call => call.2.URL) = ["http://b.local/x"] ∧
    "http://b.local/x" ≠ "http://a.local" ++ "/" ++ "x" ∧
    (handler
        { exampleConfig with
          Mappings := [{ Forward := "http://c.local", Prefix := "api/v1", Whitelist := [] }] }
        (buildTargetMap compileExample
          [{ Forward := "http://c.local", Prefix := "api/v1", Whitelist := [] }])
        (exampleNet
          { StatusCode := 200, Header := [], ContentLength := 0, Body := { chunks := [] } }
          { StatusCode := 200, Header := [], ContentLength := 0, Body := { chunks := [] } })
        emptyCaches
        { Method := "GET", OriginalURL := "/" ++ "api/v1" ++ "/" ++ "x", Header := [],
          Body := [] }) =
      { caches := emptyCaches, calls := [],
        outcome :=
          Outcome.replied
            { Status := 400, Header := [],
              Body := Sent.string "Prefix \"api\" not found in mappings" } } := by
  refine ⟨by decide, by decide, by decide⟩

/-- C4, amended. For a mapping `m` of the configuration whose prefix holds no `/` and is
not the prefix of a later mapping, and for every `x`, the URL `"/" + m.Prefix + "/" + x`
has first segment `m.Prefix`, `targetMap` holds under it the target built from `m`
(`m.Forward` and the patterns of `m` that compile), the remainder path is `"/" + x`, and
every call the handler makes to the backend goes to `m.Forward + "/" + x`. -/
theorem prefixed_request_resolves (compile : String → Option Glob) (C : Config)
    (before after : List Mapping) (m : Mapping) (x : String) (net : Net) (st : Caches)
    (c : Ctx)
    (hC : C.Mappings = before ++ m :: after)
    (hslash : '/' ∉ m.Prefix.data)
    (hlast : ∀ m' ∈ after, m'.Prefix ≠ m.Prefix)
    (hurl : c.OriginalURL = "/" ++ m.Prefix ++ "/" ++ x) :
    (Split c.OriginalURL '/')[1]? = some m.Prefix ∧
    (buildTargetMap compile C.Mappings).get? m.Prefix =
      some { Url := m.Forward, Whitelist := compileWhitelist compile m.Whitelist } ∧
    c.OriginalURL ≠ "/" ∧
    remainder c m.Prefix = "/" ++ x ∧
    (∀ req, (Leg.backend, req) ∈
        (handler C (buildTargetMap compile C.Mappings) net st c).calls →
      req.URL = m.Forward ++ "/" ++ x) := by
  have hp : (Split c.OriginalURL '/')[1]? = some m.Prefix := by
    rw [hurl]; exact Split_prefixed m.Prefix x hslash
  have ht : (buildTargetMap compile C.Mappings).get? m.Prefix = some (targetOf compile m) := by
    rw [hC]; exact targetMap_get?_last compile before after m hlast
  have hu : c.OriginalURL ≠ "/" := by rw [hurl]; exact prefixed_ne_root m.Prefix x
  have hr : remainder c m.Prefix = "/" ++ x := by
    unfold remainder; rw [hurl]; exact sliceFrom_prefixed m.Prefix x
  refine ⟨hp, ht, hu, hr, ?_⟩
  intro req hreq
  have := handler_backend_url C _ net st c m.Prefix (targetOf compile m) hp ht hu req hreq
  rw [this, hr, String.append_assoc]
  rfl

/-- C4 at the scenario: `/svc/private/data` resolves to the mapping `svc`. -/
theorem prefixed_request_resolves_witness :
    remainder
        { Method := "GET", OriginalURL := "/" ++ "svc" ++ "/" ++ "private/data",
          Header := [], Body := [] } "svc" = "/" ++ "private/data" :=
  (prefixed_request_resolves compileExample exampleConfig [] []
    { Forward := "http://backend.local", Prefix := "svc", Whitelist := ["/public/*"] }
    "private/data"
    (exampleNet
      { StatusCode := 200, Header := [], ContentLength := 0, Body := { chunks := [] } }
      { StatusCode := 200, Header := [], ContentLength := 0, Body := { chunks := [] } })
    emptyCaches
    { Method := "GET", OriginalURL := "/" ++ "svc" ++ "/" ++ "private/data", Header := [],
      Body := [] }
    (by rfl) (by decide) (by intro m' hm'; cases hm') (by rfl)).2.2.2.1

/-! ## C7: what a bypassed request and its response carry -/

/-- C7 as stated fails. `GET /svc/public/health` is bypassed; the client sends two `Accept`
lines and the backend answers with two `Set-Cookie` values. The backend request carries
only the second `Accept` value, and the reply only the first cookie. -/
theorem bypass_drops_repeated_values :
    handler exampleConfig (buildTargetMap compileExample exampleConfig.Mappings)
        (exampleNet
          { StatusCode := 200, Header := [], ContentLength := 0, Body := { chunks := [] } }
          { StatusCode := 200, Header := [("Set-Cookie", ["a=1", "b=2"])],
            ContentLength := 2, Body := { chunks := [ascii "ok"] } })
        emptyCaches
        { Method := "GET", OriginalURL := "/svc/public/health",
          Header := [("Accept", "text/html"), ("Accept", "application/json")],
          Body := [] } =
      { caches := emptyCaches,
        calls :=
          [(Leg.backend,
            { Method := "GET", URL := "http://backend.local/public/health",
              Header := [("Accept", ["application/json"])], Body := some [] })],
        outcome :=
          Outcome.replied
            { Status := 200, Header := [("Set-Cookie", "a=1")],
              Body := Sent.stream { chunks := [ascii "ok"] } } } ∧
    "text/html" ∉ Header.Values [("Accept", ["application/json"])] "Accept" ∧
    "b=2" ∉ ([("Set-Cookie", "a=1")] : GoMap String).map Prod.snd := by
  refine ⟨by decide, by decide, by decide⟩

/-- C7, amended. For a bypassed request whose backend request can be built, and for every
backend response (each name with at least one value): the one outbound call is the
backend call, with the original method, the original body, and under each name the last
value the client sent under it (no other name); the handler answers with the backend's
status (`c.Status`), one `c.Set` per header name of the backend response, with the first
of its values, and no other `c.Set`, and the backend's body stream (`SendStream`). -/
theorem bypass_round_trip (C : Config) (targetMap : GoMap Target) (net : Net) (st : Caches)
    (c : Ctx) (pfx : String) (target : Target) (resp : Response)
    (hp : (Split c.OriginalURL '/')[1]? = some pfx)
    (ht : targetMap.get? pfx = some target) (hu : c.OriginalURL ≠ "/")
    (hw : ∃ w ∈ target.Whitelist, w.Match (remainder c pfx) = true)
    (hbuild : net.requestError c.Method (target.Url ++ remainder c pfx) = none)
    (hdo : net.Do Leg.backend (plainBackendRequest c target (remainder c pfx)) =
      Except.ok resp)
    (hne : ∀ kv ∈ resp.Header, kv.2 ≠ []) :
    (handler C targetMap net st c).calls =
        [(Leg.backend, plainBackendRequest c target (remainder c pfx))] ∧
    (plainBackendRequest c target (remainder c pfx)).Method = c.Method ∧
    (plainBackendRequest c target (remainder c pfx)).Body = some c.Body ∧
    (∀ name, Header.Values (plainBackendRequest c target (remainder c pfx)).Header name =
        (lastSent c.Header name).toList) ∧
    ∃ h, (handler C targetMap net st c).outcome =
        Outcome.replied
          { Status := resp.StatusCode, Header := h, Body := Sent.stream resp.Body } ∧
      SetsFirstValues h resp.Header := by
  have hb := (bypassed_iff target.Whitelist (remainder c pfx)).2 hw
  have he := handler_bypassed C targetMap net st c pfx target hp ht hu hb
  obtain ⟨h, hset, hold⟩ := setsFirstValues_setFirstValues resp.Header hne
  have hrun : forward C target net st c (remainder c pfx) none [] =
      { caches := st,
        calls := [(Leg.backend, plainBackendRequest c target (remainder c pfx))],
        outcome :=
          Outcome.replied
            { Status := resp.StatusCode, Header := h, Body := Sent.stream resp.Body } } := by
    unfold plainBackendRequest at hdo
    unfold forward plainBackendRequest
    simp only [hbuild, hdo, hset, List.nil_append]
  have he1 : handler C targetMap net st c =
      forward C target net st c (remainder c pfx) none [] := he
  rw [he1, hrun]
  exact ⟨rfl, rfl, rfl, fun name => values_visitAllSet c.Header name, h, rfl, hold⟩

/-- C7 at the scenario: `GET /svc/public/health` with one cookie in the answer. -/
theorem bypass_round_trip_witness :
    (handler exampleConfig (buildTargetMap compileExample exampleConfig.Mappings)
        (exampleNet
          { StatusCode := 200, Header := [], ContentLength := 0, Body := { chunks := [] } }
          { StatusCode := 200, Header := [("Set-Cookie", ["a=1"])],
            ContentLength := 2, Body := { chunks := [ascii "ok"] } })
        emptyCaches
        { Method := "GET", OriginalURL := "/svc/public/health",
          Header := [("Accept", "text/html")], Body := [] }).calls =
      [(Leg.backend,
        plainBackendRequest
          { Method := "GET", OriginalURL := "/svc/public/health",
            Header := [("Accept", "text/html")], Body := [] }
          (targetOf compileExample
            { Forward := "http://backend.local", Prefix := "svc", Whitelist := ["/public/*"] })
          (remainder
            { Method := "GET", OriginalURL := "/svc/public/health",
              Header := [("Accept", "text/html")], Body := [] } "svc"))] :=
  (bypass_round_trip exampleConfig (buildTargetMap compileExample exampleConfig.Mappings)
    (exampleNet
      { StatusCode := 200, Header := [], ContentLength := 0, Body := { chunks := [] } }
      { StatusCode := 200, Header := [("Set-Cookie", ["a=1"])],
        ContentLength := 2, Body := { chunks := [ascii "ok"] } })
    emptyCaches
    { Method := "GET", OriginalURL := "/svc/public/health",
      Header := [("Accept", "text/html")], Body := [] }
    "svc"
    (targetOf compileExample
      { Forward := "http://backend.local", Prefix := "svc", Whitelist := ["/public/*"] })
    { StatusCode := 200, Header := [("Set-Cookie", ["a=1"])],
      ContentLength := 2, Body := { chunks := [ascii "ok"] } }
    (by decide) (by rfl) (by decide)
    ⟨{ Match := fun path => "/public/".data.isPrefixOf path.data },
      by simp [targetOf, compileWhitelist, compileExample], by decide⟩
    (by rfl) (by rfl) (by decide)).1

/-! ## C6: the preflight branch -/

/-- C6 as stated fails. `OPTIONS /svc/private/data` is not whitelisted; the auth endpoint
answers 204 with two values of `Access-Control-Allow-Headers`. The reply carries the
first value only. -/
theorem preflight_drops_repeated_values :
    (handler exampleConfig (buildTargetMap compileExample exampleConfig.Mappings)
        (exampleNet
          { StatusCode := 204,
            Header := [("Access-Control-Allow-Headers", ["Authorization", "Content-Type"])],
            ContentLength := 0, Body := { chunks := [] } }
          { StatusCode := 200, Header := [], ContentLength := 0, Body := { chunks := [] } })
        emptyCaches
        { Method := "OPTIONS", OriginalURL := "/svc/private/data",
          Header := [("Origin", "http://app.local")], Body := [] }).outcome =
      Outcome.replied
        { Status := 204, Header := [("Access-Control-Allow-Headers", "Authorization")],
          Body := Sent.string "" } ∧
    "Content-Type" ∉
      ([("Access-Control-Allow-Headers", "Authorization")] : GoMap String).map Prod.snd := by
  refine ⟨by decide, by decide⟩

/-- C6, amended. For an `OPTIONS` request to a resolved prefix whose remainder path matches
no pattern and whose auth request can be built, and for every auth response (each name
with at least one value): exactly one outbound call is made, to `C.Auth.Url + path` with
method `OPTIONS`, none to the backend; the handler answers with the auth response's status
(`c.Status`), one `c.Set` per header name of the auth response, with the first of its
values, and no other `c.Set`, and an empty body (`SendString("")`). -/
theorem preflight_reply (C : Config) (targetMap : GoMap Target) (net : Net) (st : Caches)
    (c : Ctx) (pfx : String) (target : Target) (resp : Response)
    (hp : (Split c.OriginalURL '/')[1]? = some pfx)
    (ht : targetMap.get? pfx = some target) (hu : c.OriginalURL ≠ "/")
    (hm : c.Method = MethodOptions)
    (hw : ∀ w ∈ target.Whitelist, w.Match (remainder c pfx) = false)
    (hbuild : net.requestError MethodOptions (C.Auth.Url ++ remainder c pfx) = none)
    (hdo : net.Do Leg.preflight (preflightRequest C st c (remainder c pfx)) = Except.ok resp)
    (hne : ∀ kv ∈ resp.Header, kv.2 ≠ []) :
    (handler C targetMap net st c).calls =
        [(Leg.preflight, preflightRequest C st c (remainder c pfx))] ∧
    (preflightRequest C st c (remainder c pfx)).URL = C.Auth.Url ++ remainder c pfx ∧
    (preflightRequest C st c (remainder c pfx)).Method = "OPTIONS" ∧
    ∃ h, (handler C targetMap net st c).outcome =
        Outcome.replied { Status := resp.StatusCode, Header := h, Body := Sent.string "" } ∧
      SetsFirstValues h resp.Header := by
  have hb := bypassed_eq_false target.Whitelist (remainder c pfx) hw
  have he := handler_preflight C targetMap net st c pfx target hp ht hu hb hm
  obtain ⟨h, hset, hold⟩ := setsFirstValues_setFirstValues resp.Header hne
  have hrun : (preflight C net st c (remainder c pfx)).calls =
        [(Leg.preflight, preflightRequest C st c (remainder c pfx))] ∧
      (preflight C net st c (remainder c pfx)).outcome =
        Outcome.replied { Status := resp.StatusCode, Header := h, Body := Sent.string "" } := by
    unfold preflightRequest at hdo
    unfold preflight preflightRequest
    simp only [hbuild, hdo, hset]
    trivial
  have he1 : handler C targetMap net st c = preflight C net st c (remainder c pfx) := he
  rw [he1]
  exact ⟨hrun.1, rfl, rfl, h, hrun.2, hold⟩

/-- C6 at the scenario: `OPTIONS /svc/private/data`, answered 204 by the auth endpoint. -/
theorem preflight_reply_witness :
    (handler exampleConfig (buildTargetMap compileExample exampleConfig.Mappings)
        (exampleNet
          { StatusCode := 204, Header := [("Access-Control-Allow-Origin", ["*"])],
            ContentLength := 0, Body := { chunks := [] } }
          { StatusCode := 200, Header := [], ContentLength := 0, Body := { chunks := [] } })
        emptyCaches
        { Method := "OPTIONS", OriginalURL := "/svc/private/data",
          Header := [("Origin", "http://app.local")], Body := [] }).calls =
      [(Leg.preflight,
        preflightRequest exampleConfig emptyCaches
          { Method := "OPTIONS", OriginalURL := "/svc/private/data",
            Header := [("Origin", "http://app.local")], Body := [] }
          (remainder
            { Method := "OPTIONS", OriginalURL := "/svc/private/data",
              Header := [("Origin", "http://app.local")], Body := [] } "svc"))] :=
  (preflight_reply exampleConfig (buildTargetMap compileExample exampleConfig.Mappings)
    (exampleNet
      { StatusCode := 204, Header := [("Access-Control-Allow-Origin", ["*"])],
        ContentLength := 0, Body := { chunks := [] } }
      { StatusCode := 200, Header := [], ContentLength := 0, Body := { chunks := [] } })
    emptyCaches
    { Method := "OPTIONS", OriginalURL := "/svc/private/data",
      Header := [("Origin", "http://app.local")], Body := [] }
    "svc"
    (targetOf compileExample
      { Forward := "http://backend.local", Prefix := "svc", Whitelist := ["/public/*"] })
    { StatusCode := 204, Header := [("Access-Control-Allow-Origin", ["*"])],
      ContentLength := 0, Body := { chunks := [] } }
    (by decide) (by rfl) (by decide) (by rfl)
    (by decide)
    (by rfl) (by rfl) (by decide)).1

/-! ## C2: which auth response headers reach the backend -/

/-- C2 as stated fails. `X-User` is on the allow-list, `X-Role` is not. The client sends
`X-Role: admin`; the auth endpoint answers 200 with `X-User: alice`, `X-User: bob` and
`X-Role: guest`. The backend request carries `X-Role` (the client's value), although
`X-Role` is on neither list, and it does not carry `X-User: bob`. -/
theorem backend_request_keeps_client_header :
    (handler exampleConfig (buildTargetMap compileExample exampleConfig.Mappings)
        (exampleNet
          { StatusCode := 200,
            Header := [("X-User", ["alice", "bob"]), ("X-Role", ["guest"])],
            ContentLength := 0, Body := { chunks := [] } }
          { StatusCode := 200, Header := [], ContentLength := 0, Body := { chunks := [] } })
        emptyCaches
        { Method := "GET", OriginalURL := "/svc/private/data",
          Header := [("X-Role", "admin")], Body := [] }).calls =
      [(Leg.auth,
          { Method := "GET", URL := "http://auth.local/private/data",
            Header := [("X-Role", ["admin"])], Body := some [] }),
        (Leg.backend,
          { Method := "GET", URL := "http://backend.local/private/data",
            Header := [("X-Role", ["admin"]), ("X-User", ["alice"])], Body := some [] })] ∧
    ¬ (∃ a ∈ exampleConfig.Auth.AllowedAuthorizationHeaders ++
          DefaultAllowedAuthorizationHeaders, ToLower a = ToLower "X-Role") ∧
    Header.Values [("X-Role", ["admin"]), ("X-User", ["alice"])] "X-Role" = ["admin"] ∧
    (∃ a ∈ exampleConfig.Auth.AllowedAuthorizationHeaders ++
          DefaultAllowedAuthorizationHeaders, ToLower a = ToLower "X-User") ∧
    "bob" ∉ Header.Values [("X-Role", ["admin"]), ("X-User", ["alice"])] "X-User" := by
  refine ⟨by decide, by decide, by decide, by decide, by decide⟩

/-- C2, amended. For a request that is not bypassed and not `OPTIONS`, whose auth response
has status 200 (each name with at least one value, names distinct in canonical form) and
whose two outbound requests can be built, and for every header `H` of the auth response
with first value `V`: the backend is called after the auth endpoint, with the original
method and body; if `H` is, lowercased, on the configured list or among the defaults, the
backend request carries under `H` the single value `V`; if `H` is on neither, the backend
request carries under `H` what the client sent under `H` (its last value, or nothing). -/
theorem overlay_on_backend_request (C : Config) (targetMap : GoMap Target) (net : Net)
    (st : Caches) (c : Ctx) (pfx : String) (target : Target) (authResp : Response)
    (H V : String) (vs : List String)
    (hp : (Split c.OriginalURL '/')[1]? = some pfx)
    (ht : targetMap.get? pfx = some target) (hu : c.OriginalURL ≠ "/")
    (hm : c.Method ≠ MethodOptions)
    (hw : ∀ w ∈ target.Whitelist, w.Match (remainder c pfx) = false)
    (hcache : ReachableBy validateAuthorizationHeaderAllowed
      C.Auth.AllowedAuthorizationHeaders st.allowedAuthorizationHeadersCache)
    (hbuildA : net.requestError c.Method (C.Auth.Url ++ remainder c pfx) = none)
    (hdo : net.Do Leg.auth (authRequest C c (remainder c pfx)) = Except.ok authResp)
    (h200 : authResp.StatusCode = 200)
    (hbuildB : net.requestError c.Method (target.Url ++ remainder c pfx) = none)
    (hne : ∀ kv ∈ authResp.Header, kv.2 ≠ [])
    (hnd : (authResp.Header.map fun kv => CanonicalMIMEHeaderKey kv.1).Nodup)
    (hH : (H, V :: vs) ∈ authResp.Header) :
    ∃ req, (handler C targetMap net st c).calls =
        [(Leg.auth, authRequest C c (remainder c pfx)), (Leg.backend, req)] ∧
      req.URL = target.Url ++ remainder c pfx ∧ req.Method = c.Method ∧
      req.Body = some c.Body ∧
      ((∃ a ∈ C.Auth.AllowedAuthorizationHeaders ++ DefaultAllowedAuthorizationHeaders,
          ToLower a = ToLower H) → Header.Values req.Header H = [V]) ∧
      (¬ (∃ a ∈ C.Auth.AllowedAuthorizationHeaders ++ DefaultAllowedAuthorizationHeaders,
          ToLower a = ToLower H) →
        Header.Values req.Header H = (lastSent c.Header H).toList) := by
  have hb := bypassed_eq_false target.Whitelist (remainder c pfx) hw
  have he : handler C targetMap net st c = authenticate C target net st c (remainder c pfx) :=
    handler_authenticate C targetMap net st c pfx target hp ht hu hb hm
  have hsound := memo_reachable_sound memoises_authorization hcache
  obtain ⟨hov, -⟩ := overlayAllowed_eq C.Auth.AllowedAuthorizationHeaders authResp.Header hne
    st.allowedAuthorizationHeadersCache (visitAllSet [] c.Header) hsound
  have hcalls := forward_overlay_calls C target net st c (remainder c pfx) authResp
    [(Leg.auth, authRequest C c (remainder c pfx))] _ hbuildB hov
  have hauth : (authenticate C target net st c (remainder c pfx)).calls =
      (forward C target net st c (remainder c pfx) (some authResp)
        [(Leg.auth, authRequest C c (remainder c pfx))]).calls := by
    unfold authRequest at hdo
    unfold authenticate authRequest
    simp only [hbuildA, hdo, h200, ne_eq, not_true_eq_false, if_false]
  refine ⟨{ Method := c.Method, URL := target.Url ++ remainder c pfx,
             Header := setAll (visitAllSet [] c.Header)
               ((authResp.Header.filter fun kv =>
                  decision DefaultAllowedAuthorizationHeaders
                    C.Auth.AllowedAuthorizationHeaders kv.1).map
                 fun kv => (CanonicalMIMEHeaderKey kv.1, [kv.2.headD ""])),
             Body := some c.Body }, ?_, rfl, rfl, rfl, ?_, ?_⟩
  · rw [he, hauth, hcalls]; rfl
  · intro hin
    have hd := (decision_iff DefaultAllowedAuthorizationHeaders
      C.Auth.AllowedAuthorizationHeaders H).2 hin
    simp only [Header.Values]
    rw [overlay_get?_allowed _ _ _ H V vs hnd hH hd]
    rfl
  · intro hin
    have hd : decision DefaultAllowedAuthorizationHeaders
        C.Auth.AllowedAuthorizationHeaders H = false := by
      cases hdec : decision DefaultAllowedAuthorizationHeaders
          C.Auth.AllowedAuthorizationHeaders H with
      | false => rfl
      | true => exact absurd ((decision_iff _ _ _).1 hdec) hin
    have := values_visitAllSet c.Header H
    simp only [Header.Values] at this ⊢
    rw [overlay_get?_refused _ _ _ H hd, this]

/-- C2 at the scenario: `X-User: alice` of the auth response reaches the backend. -/
theorem overlay_on_backend_request_witness :
    ∃ req,
      (handler exampleConfig (buildTargetMap compileExample exampleConfig.Mappings)
          (exampleNet
            { StatusCode := 200, Header := [("X-User", ["alice"]), ("X-Role", ["guest"])],
              ContentLength := 0, Body := { chunks := [] } }
            { StatusCode := 200, Header := [], ContentLength := 0, Body := { chunks := [] } })
          emptyCaches
          { Method := "GET", OriginalURL := "/svc/private/data", Header := [],
            Body := [] }).calls =
        [(Leg.auth,
            authRequest exampleConfig
              { Method := "GET", OriginalURL := "/svc/private/data", Header := [],
                Body := [] }
              (remainder
                { Method := "GET", OriginalURL := "/svc/private/data", Header := [],
                  Body := [] } "svc")),
          (Leg.backend, req)] ∧
      Header.Values req.Header "X-User" = ["alice"] :=
  have t := overlay_on_backend_request exampleConfig
    (buildTargetMap compileExample exampleConfig.Mappings)
    (exampleNet
      { StatusCode := 200, Header := [("X-User", ["alice"]), ("X-Role", ["guest"])],
        ContentLength := 0, Body := { chunks := [] } }
      { StatusCode := 200, Header := [], ContentLength := 0, Body := { chunks := [] } })
    emptyCaches
    { Method := "GET", OriginalURL := "/svc/private/data", Header := [], Body := [] }
    "svc"
    (targetOf compileExample
      { Forward := "http://backend.local", Prefix := "svc", Whitelist := ["/public/*"] })
    { StatusCode := 200, Header := [("X-User", ["alice"]), ("X-Role", ["guest"])],
      ContentLength := 0, Body := { chunks := [] } }
    "X-User" "alice" []
    (by decide) (by rfl) (by decide) (by decide) (by decide) ReachableBy.empty
    (by rfl) (by rfl) (by rfl) (by rfl) (by decide) (by decide) (by decide)
  Exists.elim t fun req hreq => ⟨req, hreq.1, hreq.2.2.2.2.1 (by decide)⟩

/-! ## C10: what the auth endpoint is sent -/

/-- C10. For a request that is not bypassed, with the request-direction cache in a
reachable state. If the method is `OPTIONS`: the only call made is the one to
`C.Auth.Url + path` (made whenever that request can be built), with method `OPTIONS` and
no body; it carries a name only if the client sent that name and the name passes the
request-direction policy (configured list or defaults, lowercased), it carries every
client header that passes, and under a name that passes the value is the last one the
client sent under it. For any other method: the call to the auth endpoint (made whenever
the request can be built) has the method of the client, an empty body, and under every
name the last value the client sent under it, whatever the policy. -/
theorem auth_request_headers (C : Config) (targetMap : GoMap Target) (net : Net)
    (st : Caches) (c : Ctx) (pfx : String) (target : Target)
    (hp : (Split c.OriginalURL '/')[1]? = some pfx)
    (ht : targetMap.get? pfx = some target) (hu : c.OriginalURL ≠ "/")
    (hw : ∀ w ∈ target.Whitelist, w.Match (remainder c pfx) = false)
    (hcache : ReachableBy validateRequestHeaderAllowed C.Auth.AllowedRequestHeaders
      st.allowedHeadersCache) :
    (c.Method = MethodOptions →
      (∀ call ∈ (handler C targetMap net st c).calls,
          call = (Leg.preflight, preflightRequest C st c (remainder c pfx))) ∧
      (net.requestError MethodOptions (C.Auth.Url ++ remainder c pfx) = none →
        (handler C targetMap net st c).calls =
          [(Leg.preflight, preflightRequest C st c (remainder c pfx))]) ∧
      (preflightRequest C st c (remainder c pfx)).Method = "OPTIONS" ∧
      (preflightRequest C st c (remainder c pfx)).URL = C.Auth.Url ++ remainder c pfx ∧
      (preflightRequest C st c (remainder c pfx)).Body = none ∧
      (∀ name, Header.Values (preflightRequest C st c (remainder c pfx)).Header name ≠ [] →
        (∃ kv ∈ c.Header, CanonicalMIMEHeaderKey kv.1 = CanonicalMIMEHeaderKey name) ∧
          ∃ a ∈ C.Auth.AllowedRequestHeaders ++ DefaultAllowedRequestHeaders,
            ToLower a = ToLower name) ∧
      (∀ kv ∈ c.Header,
        (∃ a ∈ C.Auth.AllowedRequestHeaders ++ DefaultAllowedRequestHeaders,
            ToLower a = ToLower kv.1) →
        Header.Values (preflightRequest C st c (remainder c pfx)).Header kv.1 ≠ []) ∧
      (∀ name,
        (∃ a ∈ C.Auth.AllowedRequestHeaders ++ DefaultAllowedRequestHeaders,
            ToLower a = ToLower name) →
        Header.Values (preflightRequest C st c (remainder c pfx)).Header name =
          (lastSent c.Header name).toList)) ∧
    (c.Method ≠ MethodOptions →
      (∀ req, (Leg.auth, req) ∈ (handler C targetMap net st c).calls →
          req = authRequest C c (remainder c pfx)) ∧
      (net.requestError c.Method (C.Auth.Url ++ remainder c pfx) = none →
        ∃ more, (handler C targetMap net st c).calls =
          (Leg.auth, authRequest C c (remainder c pfx)) :: more) ∧
      (authRequest C c (remainder c pfx)).Method = c.Method ∧
      (authRequest C c (remainder c pfx)).URL = C.Auth.Url ++ remainder c pfx ∧
      (authRequest C c (remainder c pfx)).Body = some [] ∧
      (∀ name, Header.Values (authRequest C c (remainder c pfx)).Header name =
          (lastSent c.Header name).toList) ∧
      (∀ kv ∈ c.Header,
          Header.Values (authRequest C c (remainder c pfx)).Header kv.1 ≠ [])) := by
  have hb := bypassed_eq_false target.Whitelist (remainder c pfx) hw
  have hsound := memo_reachable_sound memoises_request hcache
  have hsent : ∀ name, (lastSent c.Header name).toList ≠ [] ↔
      ∃ kv ∈ c.Header, CanonicalMIMEHeaderKey kv.1 = CanonicalMIMEHeaderKey name := by
    intro name
    rw [← lastSent_isSome_iff]
    cases lastSent c.Header name <;> simp
  constructor
  · intro hm
    have he : handler C targetMap net st c = preflight C net st c (remainder c pfx) :=
      handler_preflight C targetMap net st c pfx target hp ht hu hb hm
    have hcalls := preflight_calls C net st c (remainder c pfx)
    have hval : ∀ name, Header.Values (preflightRequest C st c (remainder c pfx)).Header name =
        if decision DefaultAllowedRequestHeaders C.Auth.AllowedRequestHeaders name = true then
          (lastSent c.Header name).toList
        else [] :=
      fun name => values_visitAllSetAllowed _ _ _ name hsound
    refine ⟨?_, ?_, rfl, rfl, rfl, ?_, ?_, ?_⟩
    · intro call hcall
      rw [he, hcalls] at hcall
      cases hr : net.requestError MethodOptions (C.Auth.Url ++ remainder c pfx) with
      | some err => rw [hr] at hcall; cases hcall
      | none => rw [hr] at hcall; simpa using hcall
    · intro hr
      rw [he, hcalls, hr]
    · intro name hne
      rw [hval] at hne
      by_cases hd : decision DefaultAllowedRequestHeaders C.Auth.AllowedRequestHeaders name
          = true
      · rw [if_pos hd] at hne
        exact ⟨(hsent name).1 hne, (decision_iff _ _ _).1 hd⟩
      · rw [if_neg hd] at hne
        exact absurd rfl hne
    · intro kv hkv hin
      rw [hval, if_pos ((decision_iff _ _ _).2 hin)]
      exact (hsent kv.1).2 ⟨kv, hkv, rfl⟩
    · intro name hin
      rw [hval, if_pos ((decision_iff _ _ _).2 hin)]
  · intro hm
    have he : handler C targetMap net st c =
        authenticate C target net st c (remainder c pfx) :=
      handler_authenticate C targetMap net st c pfx target hp ht hu hb hm
    have hcalls := authenticate_calls C target net st c (remainder c pfx)
    have hval : ∀ name, Header.Values (authRequest C c (remainder c pfx)).Header name =
        (lastSent c.Header name).toList :=
      fun name => values_visitAllSet c.Header name
    refine ⟨?_, ?_, rfl, rfl, rfl, hval, ?_⟩
    · intro req hreq
      rw [he] at hreq
      cases hr : net.requestError c.Method (C.Auth.Url ++ remainder c pfx) with
      | some err =>
        rw [hr] at hcalls
        simp only at hcalls
        rw [hcalls] at hreq; cases hreq
      | none =>
        rw [hr] at hcalls
        obtain ⟨more, hmore, hleg⟩ := hcalls
        rw [hmore] at hreq
        rcases List.mem_cons.1 hreq with h1 | h1
        · exact (Prod.mk.inj h1).2
        · have := hleg _ h1
          cases this
    · intro hr
      rw [hr] at hcalls
      obtain ⟨more, hmore, -⟩ := hcalls
      exact ⟨more, by rw [he, hmore]⟩
    · intro kv hkv
      rw [hval]
      exact (hsent kv.1).2 ⟨kv, hkv, rfl⟩

/-- C10 at the scenario: for `OPTIONS /svc/private/data` with the headers `Origin` and
`X-Debug`, the auth endpoint is sent `Origin` only. -/
theorem auth_request_headers_witness :
    (handler exampleConfig (buildTargetMap compileExample exampleConfig.Mappings)
        (exampleNet
          { StatusCode := 204, Header := [], ContentLength := 0, Body := { chunks := [] } }
          { StatusCode := 200, Header := [], ContentLength := 0, Body := { chunks := [] } })
        emptyCaches
        { Method := "OPTIONS", OriginalURL := "/svc/private/data",
          Header := [("Origin", "http://app.local"), ("X-Debug", "1")], Body := [] }).calls =
      [(Leg.preflight,
        preflightRequest exampleConfig emptyCaches
          { Method := "OPTIONS", OriginalURL := "/svc/private/data",
            Header := [("Origin", "http://app.local"), ("X-Debug", "1")], Body := [] }
          (remainder
            { Method := "OPTIONS", OriginalURL := "/svc/private/data",
              Header := [("Origin", "http://app.local"), ("X-Debug", "1")], Body := [] }
            "svc"))] ∧
    Header.Values
        (preflightRequest exampleConfig emptyCaches
          { Method := "OPTIONS", OriginalURL := "/svc/private/data",
            Header := [("Origin", "http://app.local"), ("X-Debug", "1")], Body := [] }
          (remainder
            { Method := "OPTIONS", OriginalURL := "/svc/private/data",
              Header := [("Origin", "http://app.local"), ("X-Debug", "1")], Body := [] }
            "svc")).Header "Origin" ≠ [] :=
  have t := (auth_request_headers exampleConfig
    (buildTargetMap compileExample exampleConfig.Mappings)
    (exampleNet
      { StatusCode := 204, Header := [], ContentLength := 0, Body := { chunks := [] } }
      { StatusCode := 200, Header := [], ContentLength := 0, Body := { chunks := [] } })
    emptyCaches
    { Method := "OPTIONS", OriginalURL := "/svc/private/data",
      Header := [("Origin", "http://app.local"), ("X-Debug", "1")], Body := [] }
    "svc"
    (targetOf compileExample
      { Forward := "http://backend.local", Prefix := "svc", Whitelist := ["/public/*"] })
    (by decide) (by rfl) (by decide) (by decide) ReachableBy.empty).1 (by rfl)
  ⟨t.2.1 (by rfl),
    t.2.2.2.2.2.2.1 ("Origin", "http://app.local") (by simp) (by decide)⟩

/-! ## C1: the reply to a rejected request -/

/-- C1 fails on the code. `GET /svc/private/data` is rejected by the auth endpoint with
status 403 and the body `denied`. When the response has no declared length
(`ContentLength` is -1) the handler panics in `make([]byte, -1)` and sends no 401; when
the six bytes arrive in two pieces of three, the single `Read` yields the 401 body
`den` followed by three zero bytes, which is not the auth response's body. In both runs
the auth endpoint is the only one called. -/
theorem rejection_body_is_not_passed_through :
    handler exampleConfig (buildTargetMap compileExample exampleConfig.Mappings)
        (exampleNet
          { StatusCode := 403, Header := [], ContentLength := -1,
            Body := { chunks := [ascii "denied"] } }
          { StatusCode := 200, Header := [], ContentLength := 0, Body := { chunks := [] } })
        emptyCaches
        { Method := "GET", OriginalURL := "/svc/private/data", Header := [], Body := [] } =
      { caches := emptyCaches,
        calls :=
          [(Leg.auth,
            { Method := "GET", URL := "http://auth.local/private/data", Header := [],
              Body := some [] })],
        outcome := Outcome.panicked } ∧
    handler exampleConfig (buildTargetMap compileExample exampleConfig.Mappings)
        (exampleNet
          { StatusCode := 403, Header := [], ContentLength := 6,
            Body := { chunks := [ascii "den", ascii "ied"] } }
          { StatusCode := 200, Header := [], ContentLength := 0, Body := { chunks := [] } })
        emptyCaches
        { Method := "GET", OriginalURL := "/svc/private/data", Header := [], Body := [] } =
      { caches := emptyCaches,
        calls :=
          [(Leg.auth,
            { Method := "GET", URL := "http://auth.local/private/data", Header := [],
              Body := some [] })],
        outcome :=
          Outcome.replied
            { Status := 401, Header := [], Body := Sent.bytes (ascii "den" ++ [0, 0, 0]) } } ∧
    ascii "den" ++ [0, 0, 0] ≠
      Reader.content { chunks := [ascii "den", ascii "ied"] } := by
  refine ⟨by decide, by decide, by decide⟩

end LocalAuthProxy
